import Mathlib

/-!
Churn dashboard: tabular export and streamed text accumulation.

A shallow embedding of the two pieces of logic of the dashboard front end:

* `downloadCSV` of `ResultsSection.jsx`: ranking of the prediction records and
  their serialisation as comma-separated text;
* the read loops of `generateReport` (`ResultsSection.jsx`) and
  `handleSendMessage` (`ChatAdvisor.jsx`), which decode a streamed response
  body and publish the growing text.

JavaScript strings are modelled as lists of characters, arrays as lists, and
objects as association lists in `Object.keys` order.  Finite numbers are
modelled by their exact rational value; `NaN` is `none` in `Option ℚ`.
-/

namespace ChurnDashboard

/-! ## Values and records -/

/-- JavaScript strings, as sequences of characters. -/
abbrev JSString := List Char

/-- A finite JavaScript number: its mathematical value, and the text that the
runtime conversion `Number::toString` prints for it. -/
structure JSNumber where
  value : ℚ
  text : JSString
deriving DecidableEq

/-- The values that reading a field of a record can give: the scalar values
that `JSON.parse` stores, `undefined` for a field that the record neither has
nor inherits, and the member of `Object.prototype` of a given name for a field
that the record inherits. -/
inductive JSValue where
  | null
  | undefined
  | bool (b : Bool)
  | num (n : JSNumber)
  | str (s : JSString)
  | inherited (name : JSString)
deriving DecidableEq

/-- A prediction record: its own properties, in `Object.keys` order. -/
abbrev Record := List (JSString × JSValue)

/-- The keys of a record: `Object.keys(row)`. -/
def objectKeys (row : Record) : List JSString :=
  row.map Prod.fst

/-- The names of the members of `Object.prototype`, which every record made by
`JSON.parse` inherits. -/
def objectPrototypeNames : List JSString :=
  ["constructor".toList, "__defineGetter__".toList, "__defineSetter__".toList,
   "hasOwnProperty".toList, "__lookupGetter__".toList, "__lookupSetter__".toList,
   "isPrototypeOf".toList, "propertyIsEnumerable".toList, "toString".toList,
   "valueOf".toList, "__proto__".toList, "toLocaleString".toList]

/-- Property read `fieldName` on `Object.prototype`, where the lookup of a
field that a record does not have itself ends. -/
def objectPrototype (fieldName : JSString) : JSValue :=
  if fieldName ∈ objectPrototypeNames then JSValue.inherited fieldName else JSValue.undefined

/-- Property read `row[fieldName]`: the value stored under the key when the
record has the key itself, and otherwise what the prototype of the record
gives: an inherited member, or `undefined`. -/
def getField : Record → JSString → JSValue
  | [], fieldName => objectPrototype fieldName
  | (k, v) :: rest, fieldName => if k = fieldName then v else getField rest fieldName

/-- The conversion `String(value)`.  An inherited member is a built-in
function, printed as the runtime prints native functions, except `__proto__`,
which is the prototype object itself. -/
def toJSString : JSValue → JSString
  | JSValue.null => "null".toList
  | JSValue.undefined => "undefined".toList
  | JSValue.bool true => "true".toList
  | JSValue.bool false => "false".toList
  | JSValue.num n => n.text
  | JSValue.str s => s
  | JSValue.inherited name =>
    if name = "__proto__".toList then "[object Object]".toList
    else if name = "constructor".toList then "function Object() \x7b [native code] \x7d".toList
    else "function ".toList ++ name ++ "() \x7b [native code] \x7d".toList

/-- The conversion `ToNumber(value)` that the operator `-` applies to its
operands; `none` stands for `NaN`.  The reading of a string as a number is the
runtime's `StringToNumber`, taken as the parameter `stringToNumber`. -/
def toNumber (stringToNumber : JSString → Option ℚ) : JSValue → Option ℚ
  | JSValue.null => some 0
  | JSValue.undefined => none
  | JSValue.bool true => some 1
  | JSValue.bool false => some 0
  | JSValue.num n => some n.value
  | JSValue.str s => stringToNumber s
  | JSValue.inherited _ => none

/-- The key of the ranking field, as written in the source. -/
def churnKey : JSString := "churn_probability".toList

/-- Property read `row.churn_probability`. -/
def churn_probability (row : Record) : JSValue :=
  getField row churnKey

/-- The number held by the ranking field of a record whose `churn_probability`
is a number (and `0` for the other records, which the statements about
ranking leave out). -/
def riskValue (row : Record) : ℚ :=
  match churn_probability row with
  | JSValue.num n => n.value
  | _ => 0

/-! ## Ranking -/

/-- The comparator `(a, b) => b.churn_probability - a.churn_probability`. -/
def riskComparator (stringToNumber : JSString → Option ℚ) (a b : Record) : Option ℚ :=
  match toNumber stringToNumber (churn_probability b),
        toNumber stringToNumber (churn_probability a) with
  | some y, some x => some (y - x)
  | _, _ => none

/-- The step `SortCompare` of `Array.prototype.sort` for a comparator: a
comparator result of `NaN` counts as `+0`. -/
def sortCompare {α : Type} (comparefn : α → α → Option ℚ) (a b : α) : ℚ :=
  match comparefn a b with
  | some v => v
  | none => 0

/-- Insertion of `a`, which came before every element of the list in the
input, into a list that is already ordered: `a` goes before the first element
`b` that it must not follow, that is, with `SortCompare(a, b) ≤ 0`. -/
def sortInsert {α : Type} (comparefn : α → α → Option ℚ) (a : α) : List α → List α
  | [] => [a]
  | b :: rest =>
    if sortCompare comparefn a b ≤ 0 then a :: b :: rest
    else b :: sortInsert comparefn a rest

/-- The built-in `Array.prototype.sort(comparefn)`, which the language
standard requires to be stable, modelled as a stable insertion sort. -/
def arraySort {α : Type} (comparefn : α → α → Option ℚ) : List α → List α
  | [] => []
  | a :: rest => sortInsert comparefn a (arraySort comparefn rest)

/-- The ranking `[...results].sort((a, b) => b.churn_probability - a.churn_probability)`.
The copy `[...results]` is the list itself: lists are values. -/
def sortByRisk (stringToNumber : JSString → Option ℚ) (results : List Record) : List Record :=
  arraySort (riskComparator stringToNumber) results

/-- The rows `displayedResults` of the table: the ten highest-ranked records
(`.slice(0, 10)` of the ranking). -/
def displayedResults (stringToNumber : JSString → Option ℚ) (results : List Record) :
    List Record :=
  (sortByRisk stringToNumber results).take 10

/-- The field `top_risks` of the request of `generateReport`:
`sortedRisk.slice(0, 20)`. -/
def reportTopRisks (stringToNumber : JSString → Option ℚ) (results : List Record) :
    List Record :=
  (sortByRisk stringToNumber results).take 20

/-- The field `top_risks` of the request of `handleSendMessage`: the ranking of
`results.results` cut by `.slice(0, 5)`. -/
def chatTopRisks (stringToNumber : JSString → Option ℚ) (results : List Record) :
    List Record :=
  (sortByRisk stringToNumber results).take 5

/-! ## Serialisation -/

/-- The replacement `stringValue.replace(/"/g, '""')`: every double quote is doubled. -/
def doubleQuotes : JSString → JSString
  | [] => []
  | c :: rest => if c = '"' then '"' :: '"' :: doubleQuotes rest else c :: doubleQuotes rest

/-- The text `stringValue` that `downloadCSV` computes for a field value:
empty for `null` and `undefined`, `String(value)` otherwise. -/
def stringValue (value : JSValue) : JSString :=
  if value = JSValue.null ∨ value = JSValue.undefined then [] else toJSString value

/-- The rendering of one field in `downloadCSV` (the body of the inner `map`). -/
def renderField (value : JSValue) : JSString :=
  let s := stringValue value
  if ',' ∈ s ∨ '"' ∈ s then '"' :: (doubleQuotes s ++ ['"']) else s

/-- The built-in `Array.prototype.join(sep)` on an array of strings. -/
def join (sep : JSString) : List JSString → JSString
  | [] => []
  | [x] => x
  | x :: y :: rest => x ++ sep ++ join sep (y :: rest)

/-- The rows `csvRows` of `downloadCSV`: every record rendered field by field
in the order of `headers`. -/
def csvRows (headers : List JSString) (sortedData : List Record) : List (List JSString) :=
  sortedData.map fun row => headers.map fun fieldName => renderField (getField row fieldName)

/-- The text `csvContent` built from the headers and the rendered rows. -/
def csvContent (headers : List JSString) (rows : List (List JSString)) : JSString :=
  join ['\n'] (join [','] headers :: rows.map (join [',']))

/-- The function `downloadCSV`: the text handed to the download link, and
`none` when the function returns without producing a download.  The guard
`!results` is excluded by the type: `results` is an array. -/
def downloadCSV (stringToNumber : JSString → Option ℚ) (results : List Record) :
    Option JSString :=
  if results.length = 0 then none
  else
    let sortedData := sortByRisk stringToNumber results
    let headers := objectKeys (sortedData.headD [])
    some (csvContent headers (csvRows headers sortedData))

/-! ## A reader for the exported text -/

/-- The positions a reader of comma-separated text can be in. -/
inductive CsvMode where
  | fieldStart
  | unquoted
  | quoted
  | quoteInQuoted
  | afterCR
deriving DecidableEq

/-- Modelled from the spec: the "standard tabular reader" of the round-trip
property, which is not part of the repository.  It follows the grammar of
RFC 4180: records are separated by a line break (`LF` or `CR LF`), fields by a
comma; a field that starts with a double quote runs to the matching double
quote, and inside it a doubled double quote stands for one and commas and line
breaks are data; a double quote inside an unquoted field, text after a closing
quote, a lone `CR` and an unterminated quoted field are rejected (`none`); a
line break at the very end of the text does not start a record.  The fields of
the current record and the characters of the current field are accumulated in
reverse. -/
def csvRead : CsvMode → JSString → List JSString → List (List JSString) → JSString →
    Option (List (List JSString))
  | CsvMode.fieldStart, _, row, rows, [] =>
    if row = [] then some rows.reverse else some (([] :: row).reverse :: rows).reverse
  | CsvMode.unquoted, field, row, rows, [] => some ((field.reverse :: row).reverse :: rows).reverse
  | CsvMode.quoted, _, _, _, [] => none
  | CsvMode.quoteInQuoted, field, row, rows, [] =>
    some ((field.reverse :: row).reverse :: rows).reverse
  | CsvMode.afterCR, _, _, _, [] => none
  | CsvMode.fieldStart, _, row, rows, c :: rest =>
    if c = '"' then csvRead CsvMode.quoted [] row rows rest
    else if c = ',' then csvRead CsvMode.fieldStart [] ([] :: row) rows rest
    else if c = '\n' then csvRead CsvMode.fieldStart [] [] (([] :: row).reverse :: rows) rest
    else if c = '\r' then csvRead CsvMode.afterCR [] ([] :: row) rows rest
    else csvRead CsvMode.unquoted [c] row rows rest
  | CsvMode.unquoted, field, row, rows, c :: rest =>
    if c = '"' then none
    else if c = ',' then csvRead CsvMode.fieldStart [] (field.reverse :: row) rows rest
    else if c = '\n' then
      csvRead CsvMode.fieldStart [] [] ((field.reverse :: row).reverse :: rows) rest
    else if c = '\r' then csvRead CsvMode.afterCR [] (field.reverse :: row) rows rest
    else csvRead CsvMode.unquoted (c :: field) row rows rest
  | CsvMode.quoted, field, row, rows, c :: rest =>
    if c = '"' then csvRead CsvMode.quoteInQuoted field row rows rest
    else csvRead CsvMode.quoted (c :: field) row rows rest
  | CsvMode.quoteInQuoted, field, row, rows, c :: rest =>
    if c = '"' then csvRead CsvMode.quoted ('"' :: field) row rows rest
    else if c = ',' then csvRead CsvMode.fieldStart [] (field.reverse :: row) rows rest
    else if c = '\n' then
      csvRead CsvMode.fieldStart [] [] ((field.reverse :: row).reverse :: rows) rest
    else if c = '\r' then csvRead CsvMode.afterCR [] (field.reverse :: row) rows rest
    else none
  | CsvMode.afterCR, _, row, rows, c :: rest =>
    if c = '\n' then csvRead CsvMode.fieldStart [] [] (row.reverse :: rows) rest
    else none

/-- Modelled from the spec: reading a whole text with the standard reader. -/
def parseCsv (text : JSString) : Option (List (List JSString)) :=
  csvRead CsvMode.fieldStart [] [] [] text

/-- The field that a reader finds at a row and a column of a text, when the
text is readable and has that row and column. -/
def parsedCell (text : JSString) (row col : Nat) : Option JSString :=
  match parseCsv text with
  | none => none
  | some rows =>
    match rows.get? row with
    | none => none
    | some fields => fields.get? col

/-! ## Decoding a streamed body -/

/-- A chunk of the response body: the bytes of the `Uint8Array` that
`reader.read()` delivers. -/
abbrev Chunk := List Nat

/-- The state that `new TextDecoder()` keeps between calls of
`decode(value, { stream: true })`: the variables of the UTF-8 decoder of the
Encoding standard, and the flag that records whether the start of the text,
where a byte order mark is dropped, has been passed. -/
structure TextDecoder where
  codePoint : Nat
  bytesSeen : Nat
  bytesNeeded : Nat
  lowerBoundary : Nat
  upperBoundary : Nat
  bomSeen : Bool
deriving DecidableEq

/-- The decoder that `new TextDecoder()` creates. -/
def newTextDecoder : TextDecoder :=
  { codePoint := 0, bytesSeen := 0, bytesNeeded := 0,
    lowerBoundary := 0x80, upperBoundary := 0xBF, bomSeen := false }

/-- The code point `U+FFFD` that the decoder puts in place of malformed input. -/
def replacementCodePoint : Nat := 0xFFFD

/-- The UTF-8 decoder at the start of a character (`bytesNeeded = 0`): the
code points it emits for the byte and its next state. -/
def decodeLeadByte (d : TextDecoder) (byte : Nat) : TextDecoder × List Nat :=
  if byte ≤ 0x7F then (d, [byte])
  else if 0xC2 ≤ byte ∧ byte ≤ 0xDF then
    ({ d with bytesNeeded := 1, codePoint := byte &&& 0x1F }, [])
  else if 0xE0 ≤ byte ∧ byte ≤ 0xEF then
    ({ d with
        lowerBoundary := if byte = 0xE0 then 0xA0 else d.lowerBoundary,
        upperBoundary := if byte = 0xED then 0x9F else d.upperBoundary,
        bytesNeeded := 2, codePoint := byte &&& 0xF }, [])
  else if 0xF0 ≤ byte ∧ byte ≤ 0xF4 then
    ({ d with
        lowerBoundary := if byte = 0xF0 then 0x90 else d.lowerBoundary,
        upperBoundary := if byte = 0xF4 then 0x8F else d.upperBoundary,
        bytesNeeded := 3, codePoint := byte &&& 0x7 }, [])
  else (d, [replacementCodePoint])

/-- One byte through the UTF-8 decoder in replacement mode.  A byte that cannot
continue the pending character ends it with `U+FFFD` and is then read again as
the start of a character. -/
def decodeByte (d : TextDecoder) (byte : Nat) : TextDecoder × List Nat :=
  if d.bytesNeeded = 0 then decodeLeadByte d byte
  else if byte < d.lowerBoundary ∨ d.upperBoundary < byte then
    let restart := decodeLeadByte
      { d with codePoint := 0, bytesNeeded := 0, bytesSeen := 0,
               lowerBoundary := 0x80, upperBoundary := 0xBF } byte
    (restart.1, replacementCodePoint :: restart.2)
  else
    let codePoint := (d.codePoint <<< 6) ||| (byte &&& 0x3F)
    if d.bytesSeen + 1 ≠ d.bytesNeeded then
      ({ d with lowerBoundary := 0x80, upperBoundary := 0xBF,
                codePoint := codePoint, bytesSeen := d.bytesSeen + 1 }, [])
    else
      ({ d with lowerBoundary := 0x80, upperBoundary := 0xBF,
                codePoint := 0, bytesNeeded := 0, bytesSeen := 0 }, [codePoint])

/-- The emitted code points turned into text: the first code point of the
whole stream is dropped when it is the byte order mark `U+FEFF`. -/
def serializeCodePoints (d : TextDecoder) : List Nat → TextDecoder × JSString
  | [] => (d, [])
  | c :: rest =>
    if d.bomSeen then
      let r := serializeCodePoints d rest
      (r.1, Char.ofNat c :: r.2)
    else
      let r := serializeCodePoints { d with bomSeen := true } rest
      (r.1, if c = 0xFEFF then r.2 else Char.ofNat c :: r.2)

/-- The call `decoder.decode(value, { stream: true })`: the text decoded from
the chunk and the decoder state kept for the next call.  With `stream: true`
the end of the chunk does not flush a pending incomplete character. -/
def decode (d : TextDecoder) : Chunk → TextDecoder × JSString
  | [] => (d, [])
  | byte :: rest =>
    let step := decodeByte d byte
    let out := serializeCodePoints step.1 step.2
    let r := decode out.1 rest
    (r.1, out.2 ++ r.2)

/-! ## The read loop -/

/-- What `await reader.read()` can give: a chunk, the end of the stream, or a
rejection. -/
inductive ReadResult where
  | chunk (value : Chunk)
  | done
  | error
deriving DecidableEq

/-- How far the read loop has got on the read results it was given. -/
inductive LoopOutcome where
  | completed
  | failed
  | awaiting
deriving DecidableEq

/-- What the read loop has done: the accumulated texts it has published, in
order, the value of `accumulatedText`, and how the loop ended. -/
structure LoopResult where
  updates : List JSString
  accumulatedText : JSString
  outcome : LoopOutcome
deriving DecidableEq

/-- The loop `while (true) { const { value, done } = await reader.read(); ... }`
shared by `generateReport` and `handleSendMessage`, run on the successive
results of `reader.read()`.  When the results run out before the end of the
stream or a failure, the loop is still waiting for the next read. -/
def readLoop (decoder : TextDecoder) (accumulatedText : JSString) : List ReadResult → LoopResult
  | [] => { updates := [], accumulatedText := accumulatedText, outcome := LoopOutcome.awaiting }
  | ReadResult.done :: _ =>
    { updates := [], accumulatedText := accumulatedText, outcome := LoopOutcome.completed }
  | ReadResult.error :: _ =>
    { updates := [], accumulatedText := accumulatedText, outcome := LoopOutcome.failed }
  | ReadResult.chunk value :: rest =>
    let decoded := decode decoder value
    let accumulated := accumulatedText ++ decoded.2
    let r := readLoop decoded.1 accumulated rest
    { updates := accumulated :: r.updates, accumulatedText := r.accumulatedText,
      outcome := r.outcome }

/-- What `await fetch(...)` can give: a rejection, a response without a body,
or a response whose body delivers the given read results. -/
inductive Response where
  | rejected
  | noBody
  | body (reads : List ReadResult)
deriving DecidableEq

/-! ## The report -/

/-- The effects of `generateReport`, in the order it performs them. -/
inductive ReportAction where
  | setReportLoading (loading : Bool)
  | setReport (text : JSString)
  | consoleError
deriving DecidableEq

/-- The text that the `catch` block of `generateReport` puts in the report. -/
def reportErrorText : JSString :=
  "## Error\nFailed to generate report. Please try again.".toList

/-- The `catch` and `finally` blocks of `generateReport`. -/
def reportCatch : List ReportAction :=
  [ReportAction.consoleError, ReportAction.setReport reportErrorText,
   ReportAction.setReportLoading false]

/-- The function `generateReport`, from the answer to its request on. -/
def generateReport : Response → List ReportAction
  | Response.rejected =>
    [ReportAction.setReportLoading true, ReportAction.setReport []] ++ reportCatch
  | Response.noBody =>
    [ReportAction.setReportLoading true, ReportAction.setReport [],
     ReportAction.setReportLoading false]
  | Response.body reads =>
    let r := readLoop newTextDecoder [] reads
    [ReportAction.setReportLoading true, ReportAction.setReport []] ++
      r.updates.map ReportAction.setReport ++
      (match r.outcome with
       | LoopOutcome.completed => [ReportAction.setReportLoading false]
       | LoopOutcome.failed => reportCatch
       | LoopOutcome.awaiting => [])

/-- The state of the report panel: `report` (`none` is `null`) and `reportLoading`. -/
structure ReportState where
  report : Option JSString
  reportLoading : Bool
deriving DecidableEq

/-- The effect of one action on the state of the report panel. -/
def ReportState.apply (s : ReportState) : ReportAction → ReportState
  | ReportAction.setReportLoading loading => { s with reportLoading := loading }
  | ReportAction.setReport text => { s with report := some text }
  | ReportAction.consoleError => s

/-- The state of the report panel after a sequence of actions. -/
def ReportState.run (s : ReportState) (actions : List ReportAction) : ReportState :=
  actions.foldl ReportState.apply s

/-! ## The chat -/

/-- The two roles of a transcript entry. -/
inductive Role where
  | user
  | bot
deriving DecidableEq

/-- An entry of the transcript `messages`. -/
structure Message where
  role : Role
  text : JSString
deriving DecidableEq

/-- The characters that `String.prototype.trim` removes. -/
def isTrimmed (c : Char) : Bool :=
  c.toNat = 0x09 || c.toNat = 0x0A || c.toNat = 0x0B || c.toNat = 0x0C || c.toNat = 0x0D ||
  c.toNat = 0x20 || c.toNat = 0xA0 || c.toNat = 0x1680 ||
  (0x2000 ≤ c.toNat && c.toNat ≤ 0x200A) ||
  c.toNat = 0x2028 || c.toNat = 0x2029 || c.toNat = 0x202F || c.toNat = 0x205F ||
  c.toNat = 0x3000 || c.toNat = 0xFEFF

/-- The test `!inputValue.trim()`: nothing is left of the input once it is trimmed. -/
def isBlank (inputValue : JSString) : Bool :=
  inputValue.all isTrimmed

/-- The updater that the read loop of `handleSendMessage` passes to
`setMessages`: the text of the last entry becomes the accumulated text when
that entry is a bot entry.  The transcript is never empty when it runs. -/
def updateLast (accumulatedText : JSString) : List Message → List Message
  | [] => []
  | [lastMsg] =>
    if lastMsg.role = Role.bot then [{ lastMsg with text := accumulatedText }] else [lastMsg]
  | m :: next :: rest => m :: updateLast accumulatedText (next :: rest)

/-- The effects of the chat component, in the order they are performed: those
of `handleSendMessage`, and the opening and closing of the panel by the user. -/
inductive ChatAction where
  | appendMessage (m : Message)
  | streamUpdate (accumulatedText : JSString)
  | setInputValue (text : JSString)
  | setIsLoading (loading : Bool)
  | setIsOpen (isOpen : Bool)
  | consoleError
deriving DecidableEq

/-- The notice that the `catch` block of `handleSendMessage` appends. -/
def chatFallbackText : JSString :=
  "I'm having trouble thinking right now. Please try again.".toList

/-- The `catch` and `finally` blocks of `handleSendMessage`. -/
def chatCatch : List ChatAction :=
  [ChatAction.consoleError,
   ChatAction.appendMessage { role := Role.bot, text := chatFallbackText },
   ChatAction.setIsLoading false]

/-- The texts that the updaters queued by the read loop of `handleSendMessage`
write.  Each updater reads the variable `accumulatedText` when React runs it,
not when it is queued.  `renders k` tells whether React runs the queued
updaters after chunk `k` and before the next chunk is appended: if so, the
updater of chunk `k` writes the text accumulated up to chunk `k`; if not, it
runs together with the updater of the next chunk and writes what that one
writes.  The updaters still queued when the reads are over run with the last
value of `accumulatedText`. -/
def updaterTexts (renders : Nat → Bool) (k : Nat) : List JSString → List JSString
  | [] => []
  | accumulated :: rest =>
    let later := updaterTexts renders (k + 1) rest
    (if renders k then accumulated else later.headD accumulated) :: later

/-- The function `handleSendMessage` for the given content of the input box,
from the answer to its request on.  An action `streamUpdate text` is an
updater of the read loop together with the text it writes when React runs it,
which depends on when React renders (`renders`). -/
def handleSendMessage (renders : Nat → Bool) (inputValue : JSString) (response : Response) :
    List ChatAction :=
  if isBlank inputValue then []
  else
    [ChatAction.appendMessage { role := Role.user, text := inputValue },
     ChatAction.setInputValue [],
     ChatAction.setIsLoading true,
     ChatAction.appendMessage { role := Role.bot, text := [] }] ++
    (match response with
     | Response.rejected => chatCatch
     | Response.noBody => [ChatAction.setIsLoading false]
     | Response.body reads =>
       let r := readLoop newTextDecoder [] reads
       (updaterTexts renders 0 r.updates).map ChatAction.streamUpdate ++
         (match r.outcome with
          | LoopOutcome.completed => [ChatAction.setIsLoading false]
          | LoopOutcome.failed => chatCatch
          | LoopOutcome.awaiting => []))

/-- The state of the chat component. -/
structure ChatState where
  messages : List Message
  inputValue : JSString
  isLoading : Bool
  isOpen : Bool
deriving DecidableEq

/-- The effect of one action on the state of the chat component. -/
def ChatState.apply (s : ChatState) : ChatAction → ChatState
  | ChatAction.appendMessage m => { s with messages := s.messages ++ [m] }
  | ChatAction.streamUpdate accumulatedText =>
    { s with messages := updateLast accumulatedText s.messages }
  | ChatAction.setInputValue text => { s with inputValue := text }
  | ChatAction.setIsLoading loading => { s with isLoading := loading }
  | ChatAction.setIsOpen isOpen => { s with isOpen := isOpen }
  | ChatAction.consoleError => s

/-- The state of the chat component after a sequence of actions. -/
def ChatState.run (s : ChatState) (actions : List ChatAction) : ChatState :=
  actions.foldl ChatState.apply s

/-- React renders after every chunk. -/
def rendersAlways : Nat → Bool :=
  fun _ => true

/-- React renders only once the reads are over. -/
def rendersAtEnd : Nat → Bool :=
  fun _ => false

/-- The chat component with the panel open: a greeting in the transcript, `hi`
typed in the input box, no request in flight. -/
def openChat : ChatState :=
  { messages := [{ role := Role.bot, text := "Hello!".toList }],
    inputValue := "hi".toList, isLoading := false, isOpen := true }

/-- The texts that the decoder returns for the successive chunks of a stream. -/
def decodedTexts (d : TextDecoder) : List Chunk → List JSString
  | [] => []
  | value :: rest => (decode d value).2 :: decodedTexts (decode d value).1 rest

/-- The concatenation of the decoded text of the first `k` chunks of a stream
read with a fresh decoder. -/
def decodedPrefix (chunks : List Chunk) (k : Nat) : JSString :=
  ((decodedTexts newTextDecoder chunks).take k).flatten

/-- The bytes of a text of ASCII characters. -/
def asciiBytes (text : String) : Chunk :=
  text.toList.map Char.toNat

/-! ## The components as state machines -/

/-- Where a call of a streaming function (`generateReport`, `handleSendMessage`)
stands between two events: no call is waiting; a call waits for `fetch`; a call
waits for `reader.read()`, with its decoder and its `accumulatedText`. -/
inductive SessionPhase where
  | idle
  | fetching
  | reading (decoder : TextDecoder) (accumulatedText : JSString)
deriving DecidableEq

/-- What the promise that a streaming function awaits settles with. -/
inductive Settled where
  | fetched (hasBody : Bool)
  | fetchRejected
  | read (result : ReadResult)
deriving DecidableEq

/-- The calls by which a streaming function reports on its stream: the update
of the loop (`setReport(accumulatedText)`, `setMessages(...)`) and the error
path (the `catch` block). -/
inductive Callback where
  | update
  | error
deriving DecidableEq

/-- The code of a streaming function from one `await` to the next: the `try`
block of `generateReport` and of `handleSendMessage` after the request is
sent.  A promise that the call does not wait for settles nothing. -/
def sessionStep : SessionPhase → Settled → SessionPhase × List Callback
  | SessionPhase.fetching, Settled.fetched true =>
    (SessionPhase.reading newTextDecoder [], [])
  | SessionPhase.fetching, Settled.fetched false => (SessionPhase.idle, [])
  | SessionPhase.fetching, Settled.fetchRejected => (SessionPhase.idle, [Callback.error])
  | SessionPhase.reading decoder accumulatedText, Settled.read (ReadResult.chunk value) =>
    (SessionPhase.reading (decode decoder value).1
      (accumulatedText ++ (decode decoder value).2), [Callback.update])
  | SessionPhase.reading _ _, Settled.read ReadResult.done => (SessionPhase.idle, [])
  | SessionPhase.reading _ _, Settled.read ReadResult.error =>
    (SessionPhase.idle, [Callback.error])
  | phase, _ => (phase, [])

/-- A streaming function run on the successive settlements of its promises. -/
def sessionRun : SessionPhase → List Settled → SessionPhase × List Callback
  | phase, [] => (phase, [])
  | phase, settled :: rest =>
    let step := sessionStep phase settled
    let r := sessionRun step.1 rest
    (r.1, step.2 ++ r.2)

/-- The state of the chat component that its event handlers read and write,
and the call of `handleSendMessage` in flight. -/
structure ChatComponent where
  inputValue : JSString
  isLoading : Bool
  isOpen : Bool
  session : SessionPhase
deriving DecidableEq

/-- Everything the user can do to the chat component: the floating button, the
close button of the panel, typing in the input box, submitting the form. -/
inductive ChatUserEvent where
  | openPanel
  | closePanel
  | changeInput (text : JSString)
  | submit
deriving DecidableEq

/-- The event handlers of the chat component.  The input box and the send
button are part of the panel and are disabled while `isLoading`; submitting
runs `handleSendMessage` up to its request. -/
def chatUserStep (c : ChatComponent) : ChatUserEvent → ChatComponent
  | ChatUserEvent.openPanel => { c with isOpen := true }
  | ChatUserEvent.closePanel => { c with isOpen := false }
  | ChatUserEvent.changeInput text =>
    if c.isOpen && !c.isLoading then { c with inputValue := text } else c
  | ChatUserEvent.submit =>
    if c.isOpen && !c.isLoading && !isBlank c.inputValue then
      { c with inputValue := [], isLoading := true, session := SessionPhase.fetching }
    else c

/-- The events of the chat component: what the user does, and what the promise
awaited by `handleSendMessage` settles with. -/
inductive ChatEvent where
  | user (event : ChatUserEvent)
  | settled (outcome : Settled)
deriving DecidableEq

/-- One event of the chat component: the new state and the calls issued for the
stream.  When the call of `handleSendMessage` returns, its `finally` block
clears `isLoading`. -/
def chatStep (c : ChatComponent) : ChatEvent → ChatComponent × List Callback
  | ChatEvent.user event => (chatUserStep c event, [])
  | ChatEvent.settled outcome =>
    let r := sessionStep c.session outcome
    ({ c with
        session := r.1,
        isLoading := if r.1 = SessionPhase.idle then false else c.isLoading }, r.2)

/-- The chat component run on a sequence of events. -/
def chatRun : ChatComponent → List ChatEvent → ChatComponent × List Callback
  | c, [] => (c, [])
  | c, event :: rest =>
    let step := chatStep c event
    let r := chatRun step.1 rest
    (r.1, step.2 ++ r.2)

/-- The state of the results section that its event handlers read and write,
and the call of `generateReport` in flight. -/
structure ReportComponent where
  report : Option JSString
  reportLoading : Bool
  showEmailModal : Bool
  emailInput : JSString
  sendingEmail : Bool
  session : SessionPhase
deriving DecidableEq

/-- The test `report` of the markup: the report is neither `null` nor empty. -/
def ReportComponent.hasReport (c : ReportComponent) : Bool :=
  match c.report with
  | some (_ :: _) => true
  | _ => false

/-- Everything the user can do to the results section: the buttons
`Generate Report` and `Refresh Brief`, `Download CSV`, `Email PDF`, and in the
email dialog `Cancel`, typing an address, and `Send PDF`. -/
inductive ReportUserEvent where
  | clickGenerate
  | clickDownload
  | openEmailModal
  | closeEmailModal
  | changeEmail (text : JSString)
  | clickSendEmail
deriving DecidableEq

/-- The event handlers of the results section.  `Generate Report` and
`Refresh Brief` are shown only while `reportLoading` is off and run
`generateReport` up to its request; `Email PDF` is shown with a report that is
not loading; the dialog `Cancel` closes is the email dialog. -/
def reportUserStep (c : ReportComponent) : ReportUserEvent → ReportComponent
  | ReportUserEvent.clickGenerate =>
    if c.reportLoading then c
    else { c with reportLoading := true, report := some [], session := SessionPhase.fetching }
  | ReportUserEvent.clickDownload => c
  | ReportUserEvent.openEmailModal =>
    if !c.reportLoading && c.hasReport then { c with showEmailModal := true } else c
  | ReportUserEvent.closeEmailModal => { c with showEmailModal := false }
  | ReportUserEvent.changeEmail text =>
    if c.showEmailModal then { c with emailInput := text } else c
  | ReportUserEvent.clickSendEmail =>
    if c.showEmailModal && !c.sendingEmail && !c.emailInput.isEmpty && c.hasReport then
      { c with sendingEmail := true }
    else c

/-- The events of the results section that are not an answer to
`generateReport`: what the user does, and the answer to the request of
`handleSendEmail`, sent or failed. -/
inductive ReportOtherEvent where
  | user (event : ReportUserEvent)
  | emailSettled (sent : Bool)
deriving DecidableEq

/-- The events of the results section: those above, and what the promise
awaited by `generateReport` settles with. -/
inductive ReportEvent where
  | other (event : ReportOtherEvent)
  | settled (outcome : Settled)
deriving DecidableEq

/-- One event of the results section: the new state and the calls issued for
the stream.  An update sets the report to the accumulated text, the error path
sets it to the error text, and the `finally` block of `generateReport` clears
`reportLoading` when the call returns. -/
def reportStep (c : ReportComponent) : ReportEvent → ReportComponent × List Callback
  | ReportEvent.other (ReportOtherEvent.user event) => (reportUserStep c event, [])
  | ReportEvent.other (ReportOtherEvent.emailSettled sent) =>
    if c.sendingEmail then
      if sent then
        ({ c with showEmailModal := false, emailInput := [], sendingEmail := false }, [])
      else ({ c with sendingEmail := false }, [])
    else (c, [])
  | ReportEvent.settled outcome =>
    let r := sessionStep c.session outcome
    ({ c with
        session := r.1,
        report :=
          if Callback.error ∈ r.2 then some reportErrorText
          else match r.1 with
            | SessionPhase.reading _ accumulatedText =>
              if Callback.update ∈ r.2 then some accumulatedText else c.report
            | _ => c.report,
        reportLoading := if r.1 = SessionPhase.idle then false else c.reportLoading }, r.2)

/-- The results section run on a sequence of events. -/
def reportRun : ReportComponent → List ReportEvent → ReportComponent × List Callback
  | c, [] => (c, [])
  | c, event :: rest =>
    let step := reportStep c event
    let r := reportRun step.1 rest
    (r.1, step.2 ++ r.2)

/-- The chat component while `handleSendMessage` waits for the next read, with
`a` accumulated so far. -/
def chatInFlight : ChatComponent :=
  { inputValue := [], isLoading := true, isOpen := true,
    session := SessionPhase.reading newTextDecoder "a".toList }

/-- The results section while `generateReport` waits for the next read, with
`a` accumulated so far. -/
def reportInFlight : ReportComponent :=
  { report := some "a".toList, reportLoading := true, showEmailModal := false,
    emailInput := [], sendingEmail := false,
    session := SessionPhase.reading newTextDecoder "a".toList }

/-! ## Arrays in the store -/

/-- The arrays of the store, each addressed by its position.  Records are kept
by value: no code of the repository writes to a field of a record. -/
abbrev Heap := List (List Record)

/-- The elements of the array behind a reference. -/
def Heap.read (h : Heap) (array : Nat) : List Record :=
  h.getD array []

/-- The spread `[...array]`: a new array with the elements of `array`. -/
def spreadCopy (h : Heap) (array : Nat) : Heap × Nat :=
  (h ++ [h.read array], h.length)

/-- The call `array.sort(comparefn)`: the array is sorted in place and is the
result of the call. -/
def sortInPlace (comparefn : Record → Record → Option ℚ) (h : Heap) (array : Nat) :
    Heap × Nat :=
  (h.set array (arraySort comparefn (h.read array)), array)

/-- The call `array.slice(0, count)`: a new array with the first `count`
elements of `array`. -/
def sliceCopy (h : Heap) (array : Nat) (count : Nat) : Heap × Nat :=
  (h ++ [(h.read array).take count], h.length)

/-- The ranking `[...results].sort((a, b) => b.churn_probability - a.churn_probability)`
on the store, as `downloadCSV` and `generateReport` run it. -/
def rankInStore (stringToNumber : JSString → Option ℚ) (h : Heap) (results : Nat) :
    Heap × Nat :=
  let copy := spreadCopy h results
  sortInPlace (riskComparator stringToNumber) copy.1 copy.2

/-- The ranking followed by `.slice(0, count)` on the store: `count` is `20`
for the request of `generateReport`, `10` for `displayedResults` and `5` for
the request of `handleSendMessage`. -/
def topRankedInStore (stringToNumber : JSString → Option ℚ) (h : Heap) (results : Nat)
    (count : Nat) : Heap × Nat :=
  let ranked := rankInStore stringToNumber h results
  sliceCopy ranked.1 ranked.2 count

/-! ## Lines of a text -/

/-- The first line of a text: its characters up to the first line break. -/
def firstLine (text : JSString) : JSString :=
  text.takeWhile fun c => c ≠ '\n'

/-- The header row of `downloadCSV` for a ranked list: `headers.join(",")`. -/
def headerRow (sortedData : List Record) : JSString :=
  join [','] (objectKeys (sortedData.headD []))

/-- The text of the row of one record in `downloadCSV`, for the given headers. -/
def dataRow (headers : List JSString) (row : Record) : JSString :=
  join [','] (headers.map fun fieldName => renderField (getField row fieldName))

/-! ## Example data -/

/-- A record with an `id` and a `churn_probability`. -/
def exampleRecord (id : JSString) (risk : JSNumber) : Record :=
  [("id".toList, JSValue.str id), (churnKey, JSValue.num risk)]

/-- The three records of the ranking example: `A` and `B` at `0.9`, `C` at `0.2`. -/
def exampleRecords : List Record :=
  [exampleRecord "A".toList ⟨9 / 10, "0.9".toList⟩,
   exampleRecord "B".toList ⟨9 / 10, "0.9".toList⟩,
   exampleRecord "C".toList ⟨2 / 10, "0.2".toList⟩]

/-- A single record whose first field holds a line break and whose second
field holds a comma. -/
def lineBreakRecords : List Record :=
  [[("note".toList, JSValue.str "x\ny".toList), ("name".toList, JSValue.str "p,q".toList),
    (churnKey, JSValue.num ⟨1 / 2, "0.5".toList⟩)]]

/-- A reading of strings as numbers that finds no number in any string; the
examples rank records whose ranking field is a number, where it is not used. -/
def noNumericStrings : JSString → Option ℚ :=
  fun _ => none

/-- A single record with a field name that holds a line break. -/
def lineBreakKeyRecords : List Record :=
  [[("first\nname".toList, JSValue.str "x".toList),
    (churnKey, JSValue.num ⟨1 / 2, "0.5".toList⟩)]]

/-- A single record with one field, which holds the empty string. -/
def emptyNoteRecords : List Record :=
  [[("note".toList, JSValue.str [])]]

/-- A single record with a field name that holds a comma. -/
def commaKeyRecords : List Record :=
  [[("last, first".toList, JSValue.str "Doe, J".toList),
    (churnKey, JSValue.num ⟨1 / 2, "0.5".toList⟩)]]

/-- A record whose `plan` is `null` and which has no field `region`. -/
def sparseRecord : Record :=
  [("id".toList, JSValue.str "A".toList), ("plan".toList, JSValue.null)]

/-- Four records: the three of the ranking example and `D` at `0.1`. -/
def fourRecords : List Record :=
  exampleRecords ++ [exampleRecord "D".toList ⟨1 / 10, "0.1".toList⟩]

/-! ## Escaping -/

theorem mem_doubleQuotes (c : Char) (s : JSString) : c ∈ doubleQuotes s ↔ c ∈ s := by
  induction s with
  | nil => simp [doubleQuotes]
  | cons a rest ih =>
    unfold doubleQuotes
    by_cases ha : a = '"'
    · subst ha
      simp [ih]
    · simp [ha, ih]

theorem stringValue_of_defined (value : JSValue) (hnull : value ≠ JSValue.null)
    (hundef : value ≠ JSValue.undefined) : stringValue value = toJSString value := by
  unfold stringValue
  rw [if_neg]
  rintro (h | h)
  · exact hnull h
  · exact hundef h

/-- C1, as stated, fails at `null`: its string form `"null"` holds neither a
comma nor a double quote, and the rendered field is not that string form. -/
theorem renderField_null_differs :
    ¬ (',' ∈ toJSString JSValue.null ∨ '"' ∈ toJSString JSValue.null) ∧
      renderField JSValue.null ≠ toJSString JSValue.null := by
  decide

/-- C1 (amended): for every field value other than `null` and `undefined`, with
`s = String(v)`, the rendered field is `s` wrapped in double quotes with every
double quote of `s` doubled if and only if `s` holds a comma or a double quote,
and otherwise the rendered field is `s` itself. -/
theorem renderField_escaping (value : JSValue) (hnull : value ≠ JSValue.null)
    (hundef : value ≠ JSValue.undefined) :
    (renderField value = '"' :: (doubleQuotes (toJSString value) ++ ['"']) ↔
        (',' ∈ toJSString value ∨ '"' ∈ toJSString value)) ∧
      (¬ (',' ∈ toJSString value ∨ '"' ∈ toJSString value) →
        renderField value = toJSString value) := by
  have hs := stringValue_of_defined value hnull hundef
  unfold renderField
  simp only [hs]
  by_cases h : ',' ∈ toJSString value ∨ '"' ∈ toJSString value
  · rw [if_pos h]
    exact ⟨⟨fun _ => h, fun _ => rfl⟩, fun hn => absurd h hn⟩
  · rw [if_neg h]
    refine ⟨⟨fun heq => ?_, fun hc => absurd hc h⟩, fun _ => rfl⟩
    exfalso
    apply h
    right
    rw [heq]
    exact List.mem_cons_self _ _

/-- C1, witness: the value `He said, "hi"` renders as `"He said, ""hi"""`. -/
theorem renderField_escaping_witness :
    JSValue.str "He said, \"hi\"".toList ≠ JSValue.null ∧
      JSValue.str "He said, \"hi\"".toList ≠ JSValue.undefined ∧
      renderField (JSValue.str "He said, \"hi\"".toList) = "\"He said, \"\"hi\"\"\"".toList :=
  ⟨by decide, by decide,
    (renderField_escaping (JSValue.str "He said, \"hi\"".toList) (by decide) (by decide)).1.mpr
      (by decide)⟩

/-! ## The round trip through a reader -/

/-- C2, at a failing input: a record whose first field holds a line break and
whose second field is `p,q`.  The text is the header row and `x`, a line break,
`y,"p,q",0.5`; a reader finds the rows `note,name,churn_probability`, `x` and
`y | p,q | 0.5`, so the row of the record has no second column, and the value
is found one row further down, in its column. -/
theorem downloadCSV_lineBreak_shifts_rows :
    downloadCSV noNumericStrings lineBreakRecords =
        some "note,name,churn_probability\nx\ny,\"p,q\",0.5".toList ∧
      (downloadCSV noNumericStrings lineBreakRecords).bind parseCsv =
        some [["note".toList, "name".toList, "churn_probability".toList], ["x".toList],
          ["y".toList, "p,q".toList, "0.5".toList]] ∧
      (downloadCSV noNumericStrings lineBreakRecords).bind (fun text => parsedCell text 1 1) =
        none := by
  decide

/-! ## Ranking -/

theorem perm_sortInsert {α : Type} (comparefn : α → α → Option ℚ) (a : α) (l : List α) :
    (sortInsert comparefn a l).Perm (a :: l) := by
  induction l with
  | nil => simp [sortInsert]
  | cons b rest ih =>
    unfold sortInsert
    split
    · exact List.Perm.refl _
    · exact (List.Perm.cons b ih).trans (List.Perm.swap a b rest)

theorem perm_arraySort {α : Type} (comparefn : α → α → Option ℚ) (l : List α) :
    (arraySort comparefn l).Perm l := by
  induction l with
  | nil => simp [arraySort]
  | cons a rest ih =>
    unfold arraySort
    exact (perm_sortInsert comparefn a _).trans (List.Perm.cons a ih)

theorem pairwise_sortInsert {α : Type} (comparefn : α → α → Option ℚ) (key : α → ℚ) (a : α)
    (l : List α) (hcmp : ∀ b ∈ l, (sortCompare comparefn a b ≤ 0 ↔ key b ≤ key a))
    (hl : l.Pairwise (fun x y => key y ≤ key x)) :
    (sortInsert comparefn a l).Pairwise (fun x y => key y ≤ key x) := by
  induction l with
  | nil => simp [sortInsert]
  | cons b rest ih =>
    have hb := hcmp b (List.mem_cons_self _ _)
    rw [List.pairwise_cons] at hl
    unfold sortInsert
    split
    · rename_i hle
      have hba : key b ≤ key a := hb.mp hle
      refine List.Pairwise.cons ?_ (List.Pairwise.cons hl.1 hl.2)
      intro y hy
      rcases List.mem_cons.mp hy with rfl | hy
      · exact hba
      · exact le_trans (hl.1 y hy) hba
    · rename_i hle
      have hab : key a ≤ key b := le_of_lt (lt_of_not_le (fun h => hle (hb.mpr h)))
      refine List.Pairwise.cons ?_
        (ih (fun c hc => hcmp c (List.mem_cons_of_mem _ hc)) hl.2)
      intro y hy
      rcases List.mem_cons.mp ((perm_sortInsert comparefn a rest).mem_iff.mp hy) with rfl | hy
      · exact hab
      · exact hl.1 y hy

theorem filter_sortInsert {α : Type} (comparefn : α → α → Option ℚ) (key : α → ℚ) (q : ℚ)
    (a : α) (l : List α) (hcmp : ∀ b ∈ l, (sortCompare comparefn a b ≤ 0 ↔ key b ≤ key a)) :
    (sortInsert comparefn a l).filter (fun x => decide (key x = q)) =
      (a :: l).filter (fun x => decide (key x = q)) := by
  induction l with
  | nil => simp [sortInsert]
  | cons b rest ih =>
    have hb := hcmp b (List.mem_cons_self _ _)
    have ih := ih (fun c hc => hcmp c (List.mem_cons_of_mem _ hc))
    unfold sortInsert
    split
    · rfl
    · rename_i hle
      have hab : key a < key b := lt_of_not_le (fun h => hle (hb.mpr h))
      by_cases hbq : key b = q
      · have haq : key a ≠ q := fun h => by rw [h, hbq] at hab; exact lt_irrefl _ hab
        simp only [List.filter_cons, hbq, haq, decide_True, decide_False, if_true] at ih ⊢
        simp [ih]
      · simp only [List.filter_cons, hbq, decide_False] at ih ⊢
        simpa using ih

theorem pairwise_arraySort {α : Type} (comparefn : α → α → Option ℚ) (key : α → ℚ)
    (l : List α)
    (hcmp : ∀ a ∈ l, ∀ b ∈ l, (sortCompare comparefn a b ≤ 0 ↔ key b ≤ key a)) :
    (arraySort comparefn l).Pairwise (fun x y => key y ≤ key x) := by
  induction l with
  | nil => simp [arraySort]
  | cons a rest ih =>
    unfold arraySort
    apply pairwise_sortInsert
    · intro b hb
      exact hcmp a (List.mem_cons_self _ _) b
        (List.mem_cons_of_mem _ ((perm_arraySort comparefn rest).mem_iff.mp hb))
    · exact ih (fun x hx y hy =>
        hcmp x (List.mem_cons_of_mem _ hx) y (List.mem_cons_of_mem _ hy))

theorem filter_arraySort {α : Type} (comparefn : α → α → Option ℚ) (key : α → ℚ) (q : ℚ)
    (l : List α)
    (hcmp : ∀ a ∈ l, ∀ b ∈ l, (sortCompare comparefn a b ≤ 0 ↔ key b ≤ key a)) :
    (arraySort comparefn l).filter (fun x => decide (key x = q)) =
      l.filter (fun x => decide (key x = q)) := by
  induction l with
  | nil => simp [arraySort]
  | cons a rest ih =>
    unfold arraySort
    rw [filter_sortInsert comparefn key q a]
    · have ih := ih (fun x hx y hy =>
        hcmp x (List.mem_cons_of_mem _ hx) y (List.mem_cons_of_mem _ hy))
      simp only [List.filter_cons, ih]
    · intro b hb
      exact hcmp a (List.mem_cons_self _ _) b
        (List.mem_cons_of_mem _ ((perm_arraySort comparefn rest).mem_iff.mp hb))

theorem sortCompare_riskComparator (stringToNumber : JSString → Option ℚ) (a b : Record)
    (ha : ∃ n, churn_probability a = JSValue.num n)
    (hb : ∃ n, churn_probability b = JSValue.num n) :
    sortCompare (riskComparator stringToNumber) a b ≤ 0 ↔ riskValue b ≤ riskValue a := by
  obtain ⟨x, hx⟩ := ha
  obtain ⟨y, hy⟩ := hb
  simp [sortCompare, riskComparator, riskValue, hx, hy, toNumber]

/-- C3: for records whose `churn_probability` is a number, the ranking of
`downloadCSV` is a permutation of the input, is non-increasing in
`churn_probability`, and keeps the input order among the records of each
`churn_probability`: for every number `q`, the records ranked at `q` are, in
order, the records of the input at `q`. -/
theorem sortByRisk_stable_descending (stringToNumber : JSString → Option ℚ)
    (results : List Record)
    (hnum : ∀ row ∈ results, ∃ n, churn_probability row = JSValue.num n) :
    (sortByRisk stringToNumber results).Perm results ∧
      (sortByRisk stringToNumber results).Pairwise (fun a b => riskValue b ≤ riskValue a) ∧
      ∀ q : ℚ, (sortByRisk stringToNumber results).filter (fun row => decide (riskValue row = q)) =
        results.filter (fun row => decide (riskValue row = q)) := by
  have hcmp : ∀ a ∈ results, ∀ b ∈ results,
      (sortCompare (riskComparator stringToNumber) a b ≤ 0 ↔ riskValue b ≤ riskValue a) :=
    fun a ha b hb => sortCompare_riskComparator stringToNumber a b (hnum a ha) (hnum b hb)
  exact ⟨perm_arraySort _ _, pairwise_arraySort _ riskValue results hcmp,
    fun q => filter_arraySort _ riskValue q results hcmp⟩

theorem exampleRecords_numeric :
    ∀ row ∈ exampleRecords, ∃ n, churn_probability row = JSValue.num n := by
  intro row hrow
  simp only [exampleRecords, List.mem_cons, List.mem_singleton, List.not_mem_nil, or_false]
    at hrow
  rcases hrow with rfl | rfl | rfl <;> exact ⟨_, rfl⟩

theorem sortByRisk_exampleRecords :
    sortByRisk noNumericStrings exampleRecords = exampleRecords := by
  have hrisk : ∀ id risk, churn_probability (exampleRecord id risk) = JSValue.num risk :=
    fun _ _ => rfl
  have hAB : sortCompare (riskComparator noNumericStrings)
      (exampleRecord "A".toList ⟨9 / 10, "0.9".toList⟩)
      (exampleRecord "B".toList ⟨9 / 10, "0.9".toList⟩) ≤ 0 := by
    simp [sortCompare, riskComparator, hrisk, toNumber]
  have hBC : sortCompare (riskComparator noNumericStrings)
      (exampleRecord "B".toList ⟨9 / 10, "0.9".toList⟩)
      (exampleRecord "C".toList ⟨2 / 10, "0.2".toList⟩) ≤ 0 := by
    simp only [sortCompare, riskComparator, hrisk, toNumber]
    norm_num
  simp only [sortByRisk, exampleRecords, arraySort, sortInsert, hAB, hBC, if_true]

/-- C3, witness: the records `A` (0.9), `B` (0.9), `C` (0.2) are ranked `A`, `B`, `C`. -/
theorem sortByRisk_stable_descending_witness :
    (∀ row ∈ exampleRecords, ∃ n, churn_probability row = JSValue.num n) ∧
      sortByRisk noNumericStrings exampleRecords = exampleRecords ∧
      ((sortByRisk noNumericStrings exampleRecords).Perm exampleRecords ∧
        (sortByRisk noNumericStrings exampleRecords).Pairwise
          (fun a b => riskValue b ≤ riskValue a) ∧
        ∀ q : ℚ,
          (sortByRisk noNumericStrings exampleRecords).filter
              (fun row => decide (riskValue row = q)) =
            exampleRecords.filter (fun row => decide (riskValue row = q))) :=
  ⟨exampleRecords_numeric, sortByRisk_exampleRecords,
    sortByRisk_stable_descending noNumericStrings exampleRecords exampleRecords_numeric⟩

/-! ## The empty export -/

/-- C10, as stated, fails: for the empty list `downloadCSV` yields no text at
all, neither an empty one nor a header row. -/
theorem downloadCSV_empty_no_text :
    ¬ ∃ text, downloadCSV noNumericStrings [] = some text := by
  simp [downloadCSV]

/-- C10 (amended): for the empty record list `downloadCSV` returns at once,
without failing: it ranks nothing, reads no first record, builds no text and
starts no download. -/
theorem downloadCSV_empty (stringToNumber : JSString → Option ℚ) :
    downloadCSV stringToNumber [] = none := by
  simp [downloadCSV]

/-! ## The read loop -/

theorem take_flatten_cons (t : JSString) (texts : List JSString) (k : Nat) :
    ((t :: texts).take (k + 1)).flatten = t ++ (texts.take k).flatten := by
  simp [List.take_succ_cons]

theorem readLoop_chunks (decoder : TextDecoder) (accumulatedText : JSString)
    (chunks : List Chunk) (last : ReadResult)
    (hlast : last = ReadResult.done ∨ last = ReadResult.error) :
    readLoop decoder accumulatedText (chunks.map ReadResult.chunk ++ [last]) =
      { updates := (List.range chunks.length).map fun k =>
          accumulatedText ++ ((decodedTexts decoder chunks).take (k + 1)).flatten,
        accumulatedText := accumulatedText ++ (decodedTexts decoder chunks).flatten,
        outcome := if last = ReadResult.done then LoopOutcome.completed
          else LoopOutcome.failed } := by
  induction chunks generalizing decoder accumulatedText with
  | nil =>
    rcases hlast with rfl | rfl <;> simp [readLoop, decodedTexts]
  | cons value rest ih =>
    have hstep : readLoop decoder accumulatedText
        (ReadResult.chunk value :: (rest.map ReadResult.chunk ++ [last])) =
        { updates := (accumulatedText ++ (decode decoder value).2) ::
            (readLoop (decode decoder value).1 (accumulatedText ++ (decode decoder value).2)
              (rest.map ReadResult.chunk ++ [last])).updates,
          accumulatedText :=
            (readLoop (decode decoder value).1 (accumulatedText ++ (decode decoder value).2)
              (rest.map ReadResult.chunk ++ [last])).accumulatedText,
          outcome :=
            (readLoop (decode decoder value).1 (accumulatedText ++ (decode decoder value).2)
              (rest.map ReadResult.chunk ++ [last])).outcome } := rfl
    rw [List.map_cons, List.cons_append, hstep, ih]
    have hupd : ∀ k, accumulatedText ++ (decode decoder value).2 ++
        ((decodedTexts (decode decoder value).1 rest).take k).flatten =
        accumulatedText ++ ((decodedTexts decoder (value :: rest)).take (k + 1)).flatten := by
      intro k
      simp [decodedTexts, List.take_succ_cons]
    simp only [hupd, List.length_cons, List.range_succ_eq_map, List.map_cons, List.map_map]
    simp [decodedTexts, Function.comp_def]

theorem decodedPrefix_length (chunks : List Chunk) :
    decodedPrefix chunks chunks.length = (decodedTexts newTextDecoder chunks).flatten := by
  have hlen : ∀ (d : TextDecoder) (cs : List Chunk), (decodedTexts d cs).length = cs.length := by
    intro d cs
    induction cs generalizing d with
    | nil => rfl
    | cons c rest ih => simp [decodedTexts, ih]
  unfold decodedPrefix
  rw [← hlen newTextDecoder chunks, List.take_length]

theorem generateReport_updates (chunks : List Chunk) :
    generateReport (Response.body (chunks.map ReadResult.chunk ++ [ReadResult.done])) =
      [ReportAction.setReportLoading true, ReportAction.setReport []] ++
        (List.range chunks.length).map
          (fun k => ReportAction.setReport (decodedPrefix chunks (k + 1))) ++
        [ReportAction.setReportLoading false] := by
  have h := readLoop_chunks newTextDecoder [] chunks ReadResult.done (Or.inl rfl)
  simp only [generateReport, h, List.map_map, List.nil_append, if_true]
  rfl

theorem length_updaterTexts (renders : Nat → Bool) (k : Nat) (updates : List JSString) :
    (updaterTexts renders k updates).length = updates.length := by
  induction updates generalizing k with
  | nil => rfl
  | cons u rest ih => simp [updaterTexts, ih]

theorem updaterTexts_rendersAlways (k : Nat) (updates : List JSString) :
    updaterTexts rendersAlways k updates = updates := by
  induction updates generalizing k with
  | nil => rfl
  | cons u rest ih => simp [updaterTexts, rendersAlways, ih]

theorem getLast?_updaterTexts (renders : Nat → Bool) (k : Nat) (updates : List JSString) :
    (updaterTexts renders k updates).getLast? = updates.getLast? := by
  induction updates generalizing k with
  | nil => rfl
  | cons u rest ih =>
    cases rest with
    | nil => cases hr : renders k <;> simp [updaterTexts, hr]
    | cons v rest =>
      have hstep : updaterTexts renders k (u :: v :: rest) =
          (if renders k then u else (updaterTexts renders (k + 1) (v :: rest)).headD u) ::
            updaterTexts renders (k + 1) (v :: rest) := rfl
      have hne : updaterTexts renders (k + 1) (v :: rest) ≠ [] := by
        intro h
        have hlen := length_updaterTexts renders (k + 1) (v :: rest)
        rw [h] at hlen
        simp at hlen
      obtain ⟨w, later, hlater⟩ := List.exists_cons_of_ne_nil hne
      rw [hstep, hlater, List.getLast?_cons_cons, ← hlater, ih (k + 1),
        List.getLast?_cons_cons]

/-- When React renders after every chunk, the updaters of `handleSendMessage`
write the concatenation of the decoded text of the chunks read so far. -/
theorem handleSendMessage_updates_rendered (chunks : List Chunk) (inputValue : JSString)
    (hinput : isBlank inputValue = false) :
    handleSendMessage rendersAlways inputValue
        (Response.body (chunks.map ReadResult.chunk ++ [ReadResult.done])) =
      [ChatAction.appendMessage { role := Role.user, text := inputValue },
       ChatAction.setInputValue [],
       ChatAction.setIsLoading true,
       ChatAction.appendMessage { role := Role.bot, text := [] }] ++
        ((List.range chunks.length).map
          (fun k => ChatAction.streamUpdate (decodedPrefix chunks (k + 1))) ++
        [ChatAction.setIsLoading false]) := by
  have h := readLoop_chunks newTextDecoder [] chunks ReadResult.done (Or.inl rfl)
  simp only [handleSendMessage, hinput, h, updaterTexts_rendersAlways, List.map_map,
    List.nil_append, if_true]
  rfl

/-- C4, at a failing input: the chunks `Hel`, `lo wor`, `ld`, all three
appended before React runs the queued updaters.  `generateReport` passes the
value of `accumulatedText` and issues the updates `Hel`, `Hello wor`,
`Hello world`; the updaters of `handleSendMessage` read the variable when they
run, and each of the three writes `Hello world`. -/
theorem chat_updates_read_late :
    generateReport (Response.body
        [ReadResult.chunk (asciiBytes "Hel"), ReadResult.chunk (asciiBytes "lo wor"),
          ReadResult.chunk (asciiBytes "ld"), ReadResult.done]) =
        [ReportAction.setReportLoading true, ReportAction.setReport [],
         ReportAction.setReport "Hel".toList, ReportAction.setReport "Hello wor".toList,
         ReportAction.setReport "Hello world".toList, ReportAction.setReportLoading false] ∧
      handleSendMessage rendersAtEnd "hi".toList (Response.body
        [ReadResult.chunk (asciiBytes "Hel"), ReadResult.chunk (asciiBytes "lo wor"),
          ReadResult.chunk (asciiBytes "ld"), ReadResult.done]) =
        [ChatAction.appendMessage { role := Role.user, text := "hi".toList },
         ChatAction.setInputValue [],
         ChatAction.setIsLoading true,
         ChatAction.appendMessage { role := Role.bot, text := [] },
         ChatAction.streamUpdate "Hello world".toList,
         ChatAction.streamUpdate "Hello world".toList,
         ChatAction.streamUpdate "Hello world".toList,
         ChatAction.setIsLoading false] := by
  decide

/-! ## Chunk boundaries -/

theorem decode_append (d : TextDecoder) (first second : Chunk) :
    decode d (first ++ second) =
      ((decode (decode d first).1 second).1,
        (decode d first).2 ++ (decode (decode d first).1 second).2) := by
  induction first generalizing d with
  | nil => simp [decode]
  | cons byte rest ih =>
    have hcons : ∀ (bytes : Chunk), decode d (byte :: bytes) =
        ((decode (serializeCodePoints (decodeByte d byte).1 (decodeByte d byte).2).1 bytes).1,
          (serializeCodePoints (decodeByte d byte).1 (decodeByte d byte).2).2 ++
            (decode (serializeCodePoints (decodeByte d byte).1 (decodeByte d byte).2).1
              bytes).2) := fun _ => rfl
    rw [List.cons_append, hcons, hcons, ih, List.append_assoc]

/-- C5: for every byte sequence and every split position, the read loop fed
the two pieces as two chunks ends with the same accumulated text as the read
loop fed the whole sequence as one chunk; this holds from every decoder state
and every text accumulated so far, and so also when the split falls inside a
multi-byte character. -/
theorem readLoop_split_chunk (decoder : TextDecoder) (accumulatedText : JSString)
    (bytes : Chunk) (position : Nat) :
    (readLoop decoder accumulatedText
        [ReadResult.chunk (bytes.take position), ReadResult.chunk (bytes.drop position),
          ReadResult.done]).accumulatedText =
      (readLoop decoder accumulatedText
        [ReadResult.chunk bytes, ReadResult.done]).accumulatedText := by
  have h := decode_append decoder (bytes.take position) (bytes.drop position)
  rw [List.take_append_drop] at h
  simp only [readLoop, h, List.append_assoc]

/-- The euro sign, whose three bytes `E2 82 AC` are split after the second,
followed by `A`: the two chunks decode to the same text as the whole. -/
theorem readLoop_split_euro :
    (readLoop newTextDecoder []
        [ReadResult.chunk [0xE2, 0x82], ReadResult.chunk [0xAC, 0x41],
          ReadResult.done]).updates = [[], "€A".toList] ∧
      (readLoop newTextDecoder []
        [ReadResult.chunk [0xE2, 0x82, 0xAC, 0x41], ReadResult.done]).updates =
        ["€A".toList] := by
  decide

/-! ## Growth of the accumulated text -/

theorem accumulatedText_grows (decoder : TextDecoder) (accumulatedText : JSString)
    (reads : List ReadResult) :
    accumulatedText <+: (readLoop decoder accumulatedText reads).accumulatedText := by
  induction reads generalizing decoder accumulatedText with
  | nil => exact List.prefix_refl _
  | cons read rest ih =>
    cases read with
    | done => exact List.prefix_refl _
    | error => exact List.prefix_refl _
    | chunk value =>
      exact (List.prefix_append _ _).trans
        (ih (decode decoder value).1 (accumulatedText ++ (decode decoder value).2))

/-- C6: the accumulated text passed to every update that the read loop issues
is a prefix of the accumulated text when the loop is over, for every sequence
of read results, and so for every chunk sequence that ends with the end of the
stream. -/
theorem update_prefix_of_final (decoder : TextDecoder) (accumulatedText : JSString)
    (reads : List ReadResult) (update : JSString)
    (hupdate : update ∈ (readLoop decoder accumulatedText reads).updates) :
    update <+: (readLoop decoder accumulatedText reads).accumulatedText := by
  induction reads generalizing decoder accumulatedText with
  | nil => simp [readLoop] at hupdate
  | cons read rest ih =>
    cases read with
    | done => simp [readLoop] at hupdate
    | error => simp [readLoop] at hupdate
    | chunk value =>
      simp only [readLoop, List.mem_cons] at hupdate
      rcases hupdate with rfl | hmem
      · exact accumulatedText_grows _ _ rest
      · exact ih _ _ hmem

/-- C6, witness: on the chunks `Hel`, `lo wor`, `ld` and the end of the stream,
the update `Hello wor` is a prefix of the final text `Hello world`. -/
theorem update_prefix_of_final_witness :
    "Hello wor".toList ∈ (readLoop newTextDecoder []
        [ReadResult.chunk (asciiBytes "Hel"), ReadResult.chunk (asciiBytes "lo wor"),
          ReadResult.chunk (asciiBytes "ld"), ReadResult.done]).updates ∧
      (readLoop newTextDecoder []
        [ReadResult.chunk (asciiBytes "Hel"), ReadResult.chunk (asciiBytes "lo wor"),
          ReadResult.chunk (asciiBytes "ld"), ReadResult.done]).accumulatedText =
        "Hello world".toList ∧
      "Hello wor".toList <+: (readLoop newTextDecoder []
        [ReadResult.chunk (asciiBytes "Hel"), ReadResult.chunk (asciiBytes "lo wor"),
          ReadResult.chunk (asciiBytes "ld"), ReadResult.done]).accumulatedText :=
  ⟨by decide, by decide,
    update_prefix_of_final newTextDecoder []
      [ReadResult.chunk (asciiBytes "Hel"), ReadResult.chunk (asciiBytes "lo wor"),
        ReadResult.chunk (asciiBytes "ld"), ReadResult.done] "Hello wor".toList (by decide)⟩

/-! ## A read that fails -/

theorem updateLast_append_bot (accumulatedText text : JSString) (ms : List Message) :
    updateLast accumulatedText (ms ++ [{ role := Role.bot, text := text }]) =
      ms ++ [{ role := Role.bot, text := accumulatedText }] := by
  induction ms with
  | nil => simp [updateLast]
  | cons m rest ih =>
    cases rest with
    | nil => simp [updateLast]
    | cons next rest =>
      simp only [List.cons_append, updateLast, List.cons.injEq, true_and]
      simpa using ih

theorem run_streamUpdates (updates : List JSString) (s : ChatState) (ms : List Message)
    (text : JSString) (hs : s.messages = ms ++ [{ role := Role.bot, text := text }]) :
    (s.run (updates.map ChatAction.streamUpdate)).messages =
      ms ++ [{ role := Role.bot, text := updates.getLast?.getD text }] := by
  induction updates generalizing s text with
  | nil => simpa [ChatState.run] using hs
  | cons u rest ih =>
    have hstep : (s.apply (ChatAction.streamUpdate u)).messages =
        ms ++ [{ role := Role.bot, text := u }] := by
      simp [ChatState.apply, hs, updateLast_append_bot]
    have h := ih (s.apply (ChatAction.streamUpdate u)) u hstep
    simp only [ChatState.run, List.map_cons, List.foldl_cons] at h ⊢
    rw [h, List.getLast?_cons]
    rfl

theorem readLoop_last_update (decoder : TextDecoder) (accumulatedText : JSString)
    (reads : List ReadResult) :
    (readLoop decoder accumulatedText reads).updates.getLast?.getD accumulatedText =
      (readLoop decoder accumulatedText reads).accumulatedText := by
  induction reads generalizing decoder accumulatedText with
  | nil => rfl
  | cons read rest ih =>
    cases read with
    | done => rfl
    | error => rfl
    | chunk value =>
      simp only [readLoop, List.getLast?_cons, Option.getD_some]
      exact ih _ _

/-- C7, as stated, fails for the report: after the chunk `Hel` and a failed
read, the accumulated text was `Hel`, and the report shown is the error text,
in which `Hel` does not occur. -/
theorem generateReport_failure_discards_text :
    (readLoop newTextDecoder []
        [ReadResult.chunk (asciiBytes "Hel"), ReadResult.error]).accumulatedText =
        "Hel".toList ∧
      ((ReportState.mk none false).run
        (generateReport (Response.body
          [ReadResult.chunk (asciiBytes "Hel"), ReadResult.error]))).report =
        some reportErrorText ∧
      ¬ ("Hel".toList <:+: reportErrorText) := by
  decide

/-- C7 (amended): when a read fails after the chunks of `chunks` have been
consumed, `handleSendMessage`, whenever React renders, leaves in the transcript, after the entry of the
user, the assistant entry with the concatenation of the decoded chunks,
followed by a new assistant entry with the fallback notice; `generateReport`
replaces the report with its error text. -/
theorem failure_after_chunks (renders : Nat → Bool) (chunks : List Chunk)
    (inputValue : JSString) (hinput : isBlank inputValue = false) (s : ChatState)
    (r : ReportState) :
    (s.run (handleSendMessage renders inputValue
        (Response.body (chunks.map ReadResult.chunk ++ [ReadResult.error])))).messages =
        s.messages ++
          [{ role := Role.user, text := inputValue },
           { role := Role.bot, text := decodedPrefix chunks chunks.length },
           { role := Role.bot, text := chatFallbackText }] ∧
      (r.run (generateReport
        (Response.body (chunks.map ReadResult.chunk ++ [ReadResult.error])))).report =
        some reportErrorText := by
  have hloop := readLoop_chunks newTextDecoder [] chunks ReadResult.error (Or.inr rfl)
  simp only [reduceCtorEq, if_false, List.nil_append] at hloop
  have hlast := readLoop_last_update newTextDecoder []
    (chunks.map ReadResult.chunk ++ [ReadResult.error])
  rw [hloop] at hlast
  simp only at hlast
  constructor
  · simp only [handleSendMessage, hinput, hloop, Bool.false_eq_true, if_false]
    rw [ChatState.run, List.foldl_append, List.foldl_append]
    have hstart : (List.foldl ChatState.apply s
        [ChatAction.appendMessage { role := Role.user, text := inputValue },
         ChatAction.setInputValue [], ChatAction.setIsLoading true,
         ChatAction.appendMessage { role := Role.bot, text := [] }]).messages =
        (s.messages ++ [{ role := Role.user, text := inputValue }]) ++
          [{ role := Role.bot, text := [] }] := by
      simp [ChatState.apply]
    have hupd := run_streamUpdates
      (updaterTexts renders 0 ((List.range chunks.length).map fun k =>
        ((decodedTexts newTextDecoder chunks).take (k + 1)).flatten)) _ _ _ hstart
    rw [ChatState.run, getLast?_updaterTexts, hlast] at hupd
    generalize List.foldl ChatState.apply s
      [ChatAction.appendMessage { role := Role.user, text := inputValue },
       ChatAction.setInputValue [], ChatAction.setIsLoading true,
       ChatAction.appendMessage { role := Role.bot, text := [] }] = started at hupd ⊢
    generalize List.foldl ChatState.apply started _ = streamed at hupd ⊢
    simp only [chatCatch, List.foldl_cons, List.foldl_nil, ChatState.apply, hupd,
      decodedPrefix_length, List.append_assoc, List.cons_append, List.nil_append]
  · simp only [generateReport, hloop, reportCatch, ReportState.run,
      List.foldl_append, List.foldl_cons, List.foldl_nil, ReportState.apply]

/-- C7, witness: after the chunk `Hel` and a failed read, the transcript ends
with the entry of the user, the assistant entry `Hel` and the fallback notice. -/
theorem failure_after_chunks_witness :
    isBlank "hi".toList = false ∧
      (openChat.run (handleSendMessage rendersAtEnd "hi".toList
        (Response.body ([asciiBytes "Hel"].map ReadResult.chunk ++
          [ReadResult.error])))).messages =
        openChat.messages ++
          [{ role := Role.user, text := "hi".toList },
           { role := Role.bot, text := "Hel".toList },
           { role := Role.bot, text := chatFallbackText }] :=
  ⟨by decide,
    (failure_after_chunks rendersAtEnd [asciiBytes "Hel"] "hi".toList (by decide) openChat
      (ReportState.mk none false)).1.trans (by decide)⟩

/-! ## A response without a body -/

/-- C8, as stated, fails: on a response without a body neither function takes
its error path; nothing is logged, the report does not become the error text
and no fallback notice is appended to the transcript. -/
theorem no_body_takes_no_error_path :
    ReportAction.consoleError ∉ generateReport Response.noBody ∧
      ReportAction.setReport reportErrorText ∉ generateReport Response.noBody ∧
      ChatAction.consoleError ∉ handleSendMessage rendersAlways "hi".toList Response.noBody ∧
      ChatAction.appendMessage { role := Role.bot, text := chatFallbackText } ∉
        handleSendMessage rendersAlways "hi".toList Response.noBody := by
  decide

/-- C8 (amended): on a response without a body `generateReport` and
`handleSendMessage` return at once and without an error: after the effects
that precede the request they only clear the loading flag; they issue no
update of the accumulated text and do not take their error path. -/
theorem no_body_returns_silently (renders : Nat → Bool) (inputValue : JSString)
    (hinput : isBlank inputValue = false) :
    generateReport Response.noBody =
        [ReportAction.setReportLoading true, ReportAction.setReport [],
         ReportAction.setReportLoading false] ∧
      handleSendMessage renders inputValue Response.noBody =
        [ChatAction.appendMessage { role := Role.user, text := inputValue },
         ChatAction.setInputValue [],
         ChatAction.setIsLoading true,
         ChatAction.appendMessage { role := Role.bot, text := [] },
         ChatAction.setIsLoading false] := by
  constructor
  · rfl
  · simp [handleSendMessage, hinput]

/-- C8, witness: the message `hi` answered by a response without a body leaves
the report empty and the transcript with an empty assistant entry. -/
theorem no_body_returns_silently_witness :
    isBlank "hi".toList = false ∧
      ((ReportState.mk none true).run (generateReport Response.noBody)) =
        ReportState.mk (some []) false ∧
      (openChat.run (handleSendMessage rendersAlways "hi".toList Response.noBody)).messages =
        openChat.messages ++
          [{ role := Role.user, text := "hi".toList }, { role := Role.bot, text := [] }] :=
  ⟨by decide,
    by rw [(no_body_returns_silently rendersAlways "hi".toList (by decide)).1]; decide,
    by rw [(no_body_returns_silently rendersAlways "hi".toList (by decide)).2]; decide⟩

/-! ## No cancellation -/

theorem sessionRun_idle (reads : List ReadResult) :
    sessionRun SessionPhase.idle (reads.map Settled.read) = (SessionPhase.idle, []) := by
  induction reads with
  | nil => rfl
  | cons read rest ih =>
    have hstep : sessionStep SessionPhase.idle (Settled.read read) = (SessionPhase.idle, []) := by
      cases read <;> rfl
    simp only [List.map_cons, sessionRun, hstep, ih, List.append_nil]

/-- The state machine and the read loop are the same code: on the same read
results the machine issues one update for each update of the loop, and the
error call exactly when the loop fails. -/
theorem sessionRun_reads (decoder : TextDecoder) (accumulatedText : JSString)
    (reads : List ReadResult) :
    (sessionRun (SessionPhase.reading decoder accumulatedText) (reads.map Settled.read)).2 =
      (readLoop decoder accumulatedText reads).updates.map (fun _ => Callback.update) ++
        (if (readLoop decoder accumulatedText reads).outcome = LoopOutcome.failed then
          [Callback.error] else []) := by
  induction reads generalizing decoder accumulatedText with
  | nil => simp [sessionRun, readLoop]
  | cons read rest ih =>
    cases read with
    | done => simp [sessionRun, sessionStep, readLoop, sessionRun_idle]
    | error => simp [sessionRun, sessionStep, readLoop, sessionRun_idle]
    | chunk value =>
      simp only [List.map_cons, sessionRun, sessionStep, readLoop, ih, List.singleton_append,
        List.cons_append, List.nil_append]

theorem chatUserStep_keeps (c : ChatComponent) (event : ChatUserEvent)
    (hloading : c.isLoading = true) :
    (chatUserStep c event).session = c.session ∧ (chatUserStep c event).isLoading = true := by
  cases event <;> simp [chatUserStep, hloading]

theorem chatRun_user (c : ChatComponent) (events : List ChatUserEvent)
    (hloading : c.isLoading = true) :
    (chatRun c (events.map ChatEvent.user)).1.session = c.session ∧
      (chatRun c (events.map ChatEvent.user)).1.isLoading = true ∧
      (chatRun c (events.map ChatEvent.user)).2 = [] := by
  induction events generalizing c with
  | nil => exact ⟨rfl, hloading, rfl⟩
  | cons event rest ih =>
    obtain ⟨hsession, hkeep⟩ := chatUserStep_keeps c event hloading
    obtain ⟨h1, h2, h3⟩ := ih (chatUserStep c event) hkeep
    simp only [List.map_cons, chatRun, chatStep, List.nil_append]
    exact ⟨h1.trans hsession, h2, h3⟩

theorem reportStep_keeps (r : ReportComponent) (event : ReportOtherEvent)
    (hloading : r.reportLoading = true) :
    (reportStep r (ReportEvent.other event)).1.session = r.session ∧
      (reportStep r (ReportEvent.other event)).1.reportLoading = true ∧
      (reportStep r (ReportEvent.other event)).2 = [] := by
  cases event with
  | emailSettled sent =>
    by_cases hs : r.sendingEmail = true <;> cases sent <;> simp [reportStep, hs, hloading]
  | user event =>
    cases event with
    | clickGenerate => simp [reportStep, reportUserStep, hloading]
    | clickDownload => simp [reportStep, reportUserStep, hloading]
    | openEmailModal => simp [reportStep, reportUserStep, hloading]
    | closeEmailModal => simp [reportStep, reportUserStep, hloading]
    | changeEmail text =>
      by_cases hm : r.showEmailModal = true <;> simp [reportStep, reportUserStep, hm, hloading]
    | clickSendEmail =>
      simp only [reportStep, reportUserStep]
      split <;> simp [hloading]

theorem reportRun_other (r : ReportComponent) (events : List ReportOtherEvent)
    (hloading : r.reportLoading = true) :
    (reportRun r (events.map ReportEvent.other)).1.session = r.session ∧
      (reportRun r (events.map ReportEvent.other)).1.reportLoading = true ∧
      (reportRun r (events.map ReportEvent.other)).2 = [] := by
  induction events generalizing r with
  | nil => exact ⟨rfl, hloading, rfl⟩
  | cons event rest ih =>
    obtain ⟨hsession, hkeep, hnone⟩ := reportStep_keeps r event hloading
    obtain ⟨h1, h2, h3⟩ := ih (reportStep r (ReportEvent.other event)).1 hkeep
    simp only [List.map_cons, reportRun, hnone, List.nil_append]
    exact ⟨h1.trans hsession, h2, h3⟩

theorem sessionStep_idle (outcome : Settled) :
    sessionStep SessionPhase.idle outcome = (SessionPhase.idle, []) := by
  cases outcome with
  | fetched hasBody => cases hasBody <;> rfl
  | fetchRejected => rfl
  | read result => cases result <;> rfl

/-- The loading flag of the chat is on for as long as a call of
`handleSendMessage` is in flight: every event keeps it so. -/
theorem chatStep_loading (c : ChatComponent) (event : ChatEvent)
    (hinv : c.session ≠ SessionPhase.idle → c.isLoading = true) :
    (chatStep c event).1.session ≠ SessionPhase.idle → (chatStep c event).1.isLoading = true := by
  cases event with
  | user event =>
    cases hl : c.isLoading with
    | true =>
      intro _
      exact (chatUserStep_keeps c event hl).2
    | false =>
      have hidle : c.session = SessionPhase.idle := by
        by_contra h
        rw [hinv h] at hl
        exact Bool.noConfusion hl
      cases event with
      | openPanel => intro h; exact absurd hidle h
      | closePanel => intro h; exact absurd hidle h
      | changeInput text =>
        intro h
        simp only [chatStep, chatUserStep] at h
        split at h <;> exact absurd hidle h
      | submit =>
        simp only [chatStep, chatUserStep]
        split
        · intro _; rfl
        · intro h; exact absurd hidle h
  | settled outcome =>
    intro h
    simp only [chatStep] at h ⊢
    rw [if_neg h]
    apply hinv
    intro hidle
    rw [hidle, sessionStep_idle] at h
    exact h rfl

/-- The loading flag of the report is on for as long as a call of
`generateReport` is in flight: every event keeps it so. -/
theorem reportStep_loading (r : ReportComponent) (event : ReportEvent)
    (hinv : r.session ≠ SessionPhase.idle → r.reportLoading = true) :
    (reportStep r event).1.session ≠ SessionPhase.idle →
      (reportStep r event).1.reportLoading = true := by
  cases event with
  | other event =>
    cases hl : r.reportLoading with
    | true =>
      intro _
      exact (reportStep_keeps r event hl).2.1
    | false =>
      have hidle : r.session = SessionPhase.idle := by
        by_contra h
        rw [hinv h] at hl
        exact Bool.noConfusion hl
      cases event with
      | emailSettled sent =>
        intro h
        simp only [reportStep] at h
        split at h
        · split at h <;> exact absurd hidle h
        · exact absurd hidle h
      | user event =>
        cases event with
        | clickGenerate => intro _; simp [reportStep, reportUserStep, hl]
        | clickDownload => intro h; exact absurd hidle h
        | openEmailModal =>
          intro h
          simp only [reportStep, reportUserStep] at h
          split at h <;> exact absurd hidle h
        | closeEmailModal => intro h; exact absurd hidle h
        | changeEmail text =>
          intro h
          simp only [reportStep, reportUserStep] at h
          split at h <;> exact absurd hidle h
        | clickSendEmail =>
          intro h
          simp only [reportStep, reportUserStep] at h
          split at h <;> exact absurd hidle h
  | settled outcome =>
    intro h
    simp only [reportStep] at h ⊢
    rw [if_neg h]
    apply hinv
    intro hidle
    rw [hidle, sessionStep_idle] at h
    exact h rfl

/-- C9, as stated, fails: neither component offers an operation that stops a
session.  With a session waiting for its next read, there is no event of the
user after which the next chunk issues no update, and none after which a
failed read issues no error call, in the chat and in the results section. -/
theorem no_event_cancels :
    (¬ ∃ event : ChatUserEvent,
        (chatStep (chatStep chatInFlight (ChatEvent.user event)).1
          (ChatEvent.settled (Settled.read (ReadResult.chunk (asciiBytes "b"))))).2 = [] ∨
        (chatStep (chatStep chatInFlight (ChatEvent.user event)).1
          (ChatEvent.settled (Settled.read ReadResult.error))).2 = []) ∧
      (¬ ∃ event : ReportUserEvent,
        (reportStep (reportStep reportInFlight
            (ReportEvent.other (ReportOtherEvent.user event))).1
          (ReportEvent.settled (Settled.read (ReadResult.chunk (asciiBytes "b"))))).2 = [] ∨
        (reportStep (reportStep reportInFlight
            (ReportEvent.other (ReportOtherEvent.user event))).1
          (ReportEvent.settled (Settled.read ReadResult.error))).2 = []) := by
  constructor
  · rintro ⟨event, h⟩
    cases event <;>
      simp [chatStep, chatUserStep, chatInFlight, sessionStep] at h
  · rintro ⟨event, h⟩
    cases event <;>
      simp [reportStep, reportUserStep, reportInFlight, sessionStep,
        ReportComponent.hasReport] at h

/-- C9 (amended): a streaming session cannot be cancelled.  While a call of
`handleSendMessage` or `generateReport` is in flight (its loading flag is on),
whatever the user does, and whatever the email request answers, leaves the
call where it stands and issues no call for the stream; the promise the call
waits for then settles as if nothing had happened: a chunk still issues an
update and advances the accumulated text, a failed read still issues the error
call. -/
theorem session_not_cancellable (c : ChatComponent) (r : ReportComponent)
    (chatEvents : List ChatUserEvent) (reportEvents : List ReportOtherEvent)
    (hchat : c.isLoading = true) (hreport : r.reportLoading = true) :
    ((chatRun c (chatEvents.map ChatEvent.user)).1.session = c.session ∧
      (chatRun c (chatEvents.map ChatEvent.user)).2 = [] ∧
      (∀ outcome,
        (chatStep (chatRun c (chatEvents.map ChatEvent.user)).1 (ChatEvent.settled outcome)).2 =
          (sessionStep c.session outcome).2) ∧
      (∀ decoder accumulatedText value, c.session = SessionPhase.reading decoder accumulatedText →
        (chatStep (chatRun c (chatEvents.map ChatEvent.user)).1
            (ChatEvent.settled (Settled.read (ReadResult.chunk value)))) =
          ({ (chatRun c (chatEvents.map ChatEvent.user)).1 with
              session := SessionPhase.reading (decode decoder value).1
                (accumulatedText ++ (decode decoder value).2) }, [Callback.update]) ∧
        (chatStep (chatRun c (chatEvents.map ChatEvent.user)).1
            (ChatEvent.settled (Settled.read ReadResult.error))).2 = [Callback.error])) ∧
    ((reportRun r (reportEvents.map ReportEvent.other)).1.session = r.session ∧
      (reportRun r (reportEvents.map ReportEvent.other)).2 = [] ∧
      (∀ outcome,
        (reportStep (reportRun r (reportEvents.map ReportEvent.other)).1
            (ReportEvent.settled outcome)).2 =
          (sessionStep r.session outcome).2) ∧
      (∀ decoder accumulatedText value, r.session = SessionPhase.reading decoder accumulatedText →
        (reportStep (reportRun r (reportEvents.map ReportEvent.other)).1
            (ReportEvent.settled (Settled.read (ReadResult.chunk value)))) =
          ({ (reportRun r (reportEvents.map ReportEvent.other)).1 with
              session := SessionPhase.reading (decode decoder value).1
                (accumulatedText ++ (decode decoder value).2),
              report := some (accumulatedText ++ (decode decoder value).2) },
            [Callback.update]) ∧
        (reportStep (reportRun r (reportEvents.map ReportEvent.other)).1
            (ReportEvent.settled (Settled.read ReadResult.error))).2 = [Callback.error])) := by
  obtain ⟨hcs, hcl, hcn⟩ := chatRun_user c chatEvents hchat
  obtain ⟨hrs, hrl, hrn⟩ := reportRun_other r reportEvents hreport
  refine ⟨⟨hcs, hcn, fun outcome => ?_, fun decoder accumulatedText value hreading => ?_⟩,
    ⟨hrs, hrn, fun outcome => ?_, fun decoder accumulatedText value hreading => ?_⟩⟩
  · simp only [chatStep, hcs]
  · rw [hreading] at hcs
    simp [chatStep, hcs, hcl, sessionStep]
  · simp only [reportStep, hrs]
  · rw [hreading] at hrs
    simp [reportStep, hrs, hrl, sessionStep]

/-- C9, witness: with the chat and the report each waiting for a read, the user
closes the panel, types and submits, clicks `Generate Report` and
`Download CSV`, and an email request answers: both sessions stand where they
stood. -/
theorem session_not_cancellable_witness :
    chatInFlight.isLoading = true ∧ reportInFlight.reportLoading = true ∧
      (chatRun chatInFlight
        ([ChatUserEvent.closePanel, ChatUserEvent.changeInput "x".toList,
          ChatUserEvent.submit].map ChatEvent.user)).1.session = chatInFlight.session ∧
      (reportRun reportInFlight
        ([ReportOtherEvent.user ReportUserEvent.clickGenerate,
          ReportOtherEvent.emailSettled true,
          ReportOtherEvent.user ReportUserEvent.clickDownload].map
            ReportEvent.other)).1.session = reportInFlight.session :=
  ⟨rfl, rfl,
    (session_not_cancellable chatInFlight reportInFlight
      [ChatUserEvent.closePanel, ChatUserEvent.changeInput "x".toList, ChatUserEvent.submit]
      [ReportOtherEvent.user ReportUserEvent.clickGenerate, ReportOtherEvent.emailSettled true,
        ReportOtherEvent.user ReportUserEvent.clickDownload] rfl rfl).1.1,
    (session_not_cancellable chatInFlight reportInFlight
      [ChatUserEvent.closePanel, ChatUserEvent.changeInput "x".toList, ChatUserEvent.submit]
      [ReportOtherEvent.user ReportUserEvent.clickGenerate, ReportOtherEvent.emailSettled true,
        ReportOtherEvent.user ReportUserEvent.clickDownload] rfl rfl).2.1⟩

/-! ## The shape of the exported text -/

theorem join_cons_eq (sep x : JSString) (xs : List JSString) :
    join sep (x :: xs) = x ++ (xs.map fun y => sep ++ y).flatten := by
  induction xs generalizing x with
  | nil => simp [join]
  | cons y rest ih =>
    have hstep : join sep (x :: y :: rest) = x ++ sep ++ join sep (y :: rest) := rfl
    rw [hstep, ih y]
    simp [List.append_assoc]

theorem sortByRisk_ne_nil (stringToNumber : JSString → Option ℚ) (results : List Record)
    (hne : results ≠ []) : sortByRisk stringToNumber results ≠ [] := by
  intro h
  have hperm := perm_arraySort (riskComparator stringToNumber) results
  unfold sortByRisk at h
  rw [h] at hperm
  exact hne (List.Perm.nil_eq hperm).symm

theorem downloadCSV_text (stringToNumber : JSString → Option ℚ) (results : List Record)
    (hne : results ≠ []) :
    downloadCSV stringToNumber results =
      some (headerRow (sortByRisk stringToNumber results) ++
        ((sortByRisk stringToNumber results).map fun row =>
          '\n' :: dataRow (objectKeys ((sortByRisk stringToNumber results).headD [])) row).flatten) := by
  have hlen : results.length ≠ 0 := fun h => hne (List.length_eq_zero.mp h)
  simp only [downloadCSV, hlen, if_false, csvContent, csvRows, join_cons_eq, headerRow,
    List.map_map, Option.some.injEq, List.append_cancel_left_eq]
  congr 1

theorem not_mem_join (c : Char) (sep : JSString) (xs : List JSString) (hsep : c ∉ sep)
    (hxs : ∀ x ∈ xs, c ∉ x) : c ∉ join sep xs := by
  cases xs with
  | nil => simp [join]
  | cons x rest =>
    rw [join_cons_eq]
    simp only [List.mem_append, List.mem_flatten, List.mem_map, not_or, not_exists, not_and]
    refine ⟨hxs x (List.mem_cons_self _ _), ?_⟩
    rintro l ⟨y, hy, rfl⟩ hc
    rcases List.mem_append.mp hc with h | h
    · exact hsep h
    · exact hxs y (List.mem_cons_of_mem _ hy) h

theorem firstLine_append (line rest : JSString) (hline : '\n' ∉ line) :
    firstLine (line ++ '\n' :: rest) = line := by
  induction line with
  | nil => simp [firstLine]
  | cons c cs ih =>
    have hc : c ≠ '\n' := fun h => hline (h ▸ List.mem_cons_self _ _)
    have hcs : '\n' ∉ cs := fun h => hline (List.mem_cons_of_mem _ h)
    have ih := ih hcs
    unfold firstLine at ih ⊢
    simp only [List.cons_append, List.takeWhile_cons, hc, ne_eq, not_false_eq_true,
      decide_True, if_true, List.cons.injEq, true_and]
    exact ih

/-- C11, as stated, fails for a field name with a line break: with the field
names `first`, line break, `name` and `churn_probability`, the first line of
the text is `first`, not the field names joined by commas. -/
theorem first_line_cut_by_line_break :
    (downloadCSV noNumericStrings lineBreakKeyRecords).map firstLine = some "first".toList ∧
      join [','] (objectKeys ((sortByRisk noNumericStrings lineBreakKeyRecords).headD [])) =
        "first\nname,churn_probability".toList := by
  decide

/-- C11 (amended): for every non-empty record list in which no field name of
the first record of the ranked list holds a line break, the first line of the
text of `downloadCSV` is the field names of that record, in its own key order,
joined by commas. -/
theorem downloadCSV_first_line (stringToNumber : JSString → Option ℚ) (results : List Record)
    (hne : results ≠ [])
    (hkeys : ∀ key ∈ objectKeys ((sortByRisk stringToNumber results).headD []), '\n' ∉ key) :
    ∃ text, downloadCSV stringToNumber results = some text ∧
      firstLine text =
        join [','] (objectKeys ((sortByRisk stringToNumber results).headD [])) := by
  refine ⟨_, downloadCSV_text stringToNumber results hne, ?_⟩
  have hranked := sortByRisk_ne_nil stringToNumber results hne
  have hheader : '\n' ∉ headerRow (sortByRisk stringToNumber results) :=
    not_mem_join '\n' [','] _ (by decide) hkeys
  cases hsorted : sortByRisk stringToNumber results with
  | nil => exact absurd hsorted hranked
  | cons first rest =>
    rw [hsorted] at hheader
    simp only [List.map_cons, List.flatten_cons, List.cons_append]
    rw [firstLine_append _ _ hheader]
    rfl

/-- C11, witness: for the three example records the first line is
`id,churn_probability`. -/
theorem downloadCSV_first_line_witness :
    exampleRecords ≠ [] ∧
      (∀ key ∈ objectKeys ((sortByRisk noNumericStrings exampleRecords).headD []),
        '\n' ∉ key) ∧
      ∃ text, downloadCSV noNumericStrings exampleRecords = some text ∧
        firstLine text =
          join [','] (objectKeys ((sortByRisk noNumericStrings exampleRecords).headD [])) := by
  have hrank := sortByRisk_exampleRecords
  have hkeys : ∀ key ∈ objectKeys ((sortByRisk noNumericStrings exampleRecords).headD []),
      '\n' ∉ key := by
    rw [hrank]
    decide
  exact ⟨by decide, hkeys,
    downloadCSV_first_line noNumericStrings exampleRecords (by decide) hkeys⟩

/-! ## Fields without a value -/

theorem getField_absent (row : Record) (fieldName : JSString)
    (habsent : fieldName ∉ objectKeys row) (hown : fieldName ∉ objectPrototypeNames) :
    getField row fieldName = JSValue.undefined := by
  induction row with
  | nil => simp [getField, objectPrototype, hown]
  | cons entry rest ih =>
    obtain ⟨k, v⟩ := entry
    simp only [objectKeys, List.map_cons, List.mem_cons, not_or] at habsent
    have hk : k ≠ fieldName := fun h => habsent.1 h.symm
    simp only [getField, hk, if_false]
    exact ih habsent.2

/-- A field that a record does not have but inherits is not `undefined`: for a
record without a field `constructor`, the header `constructor` is rendered as
the text of the inherited function. -/
theorem renderField_inherited :
    "constructor".toList ∉ objectKeys sparseRecord ∧
      getField sparseRecord "constructor".toList = JSValue.inherited "constructor".toList ∧
      renderField (getField sparseRecord "constructor".toList) =
        "function Object() \x7b [native code] \x7d".toList := by
  decide

/-- C12: for every record and every header field whose value in the record is
`null` or `undefined`, the latter also because the record neither has the
field nor inherits it from `Object.prototype`, `downloadCSV` renders the field
as the empty string, and so neither as `null` nor as `undefined`. -/
theorem renderField_without_value (row : Record) (fieldName : JSString)
    (hvalue : getField row fieldName = JSValue.null ∨
      getField row fieldName = JSValue.undefined ∨
      (fieldName ∉ objectKeys row ∧ fieldName ∉ objectPrototypeNames)) :
    renderField (getField row fieldName) = [] ∧
      renderField (getField row fieldName) ≠ "null".toList ∧
      renderField (getField row fieldName) ≠ "undefined".toList := by
  have hcases : getField row fieldName = JSValue.null ∨
      getField row fieldName = JSValue.undefined := by
    rcases hvalue with h | h | h
    · exact Or.inl h
    · exact Or.inr h
    · exact Or.inr (getField_absent row fieldName h.1 h.2)
  have hempty : renderField (getField row fieldName) = [] := by
    rcases hcases with h | h <;> rw [h] <;> rfl
  rw [hempty]
  exact ⟨rfl, by decide, by decide⟩

/-- C12, witness: in a record whose `plan` is `null` and which has no field
`region`, both fields are rendered as the empty string; the row for the headers
`id`, `plan`, `region` is `A,,`. -/
theorem renderField_without_value_witness :
    (getField sparseRecord "plan".toList = JSValue.null ∨
        getField sparseRecord "plan".toList = JSValue.undefined ∨
        ("plan".toList ∉ objectKeys sparseRecord ∧
          "plan".toList ∉ objectPrototypeNames)) ∧
      renderField (getField sparseRecord "plan".toList) = [] ∧
      (("region".toList ∉ objectKeys sparseRecord ∧
          "region".toList ∉ objectPrototypeNames) ∧
        renderField (getField sparseRecord "region".toList) = []) ∧
      dataRow ["id".toList, "plan".toList, "region".toList] sparseRecord = "A,,".toList :=
  ⟨Or.inl (by decide),
    (renderField_without_value sparseRecord "plan".toList (Or.inl (by decide))).1,
    ⟨by decide,
      (renderField_without_value sparseRecord "region".toList
        (Or.inr (Or.inr (by decide)))).1⟩,
    by decide⟩

/-! ## Rows and line breaks -/

theorem suffix_flatten_map_last {α : Type} (f : α → JSString) (l : List α) (x : α)
    (hlast : l.getLast? = some x) : f x <:+ (l.map f).flatten := by
  obtain ⟨init, rfl⟩ := List.getLast?_eq_some_iff.mp hlast
  simp only [List.map_append, List.map_cons, List.map_nil, List.flatten_append,
    List.flatten_cons, List.flatten_nil, List.append_nil]
  exact List.suffix_append _ _

/-- C13, as stated, fails in its last part: for a single record whose only
field `note` holds the empty string, the last row is empty and the text is
`note` followed by a line break: it ends with a line break. -/
theorem text_ends_with_line_break :
    downloadCSV noNumericStrings emptyNoteRecords = some "note\n".toList ∧
      (downloadCSV noNumericStrings emptyNoteRecords).bind List.getLast? = some '\n' := by
  decide

/-- C13 (amended): for every non-empty record list the text of `downloadCSV`
is the header row followed, for each record in ranked order, by a line break
and the row of the record, which renders the fields in header column order
joined by commas; nothing follows the last row: the text ends with the line
break that precedes the last row and that row. -/
theorem downloadCSV_rows (stringToNumber : JSString → Option ℚ) (results : List Record)
    (hne : results ≠ []) :
    downloadCSV stringToNumber results =
        some (join [','] (objectKeys ((sortByRisk stringToNumber results).headD [])) ++
          ((sortByRisk stringToNumber results).map fun row =>
            '\n' :: join [',']
              ((objectKeys ((sortByRisk stringToNumber results).headD [])).map
                fun fieldName => renderField (getField row fieldName))).flatten) ∧
      ∀ lastRecord text, (sortByRisk stringToNumber results).getLast? = some lastRecord →
        downloadCSV stringToNumber results = some text →
        ('\n' :: join [',']
          ((objectKeys ((sortByRisk stringToNumber results).headD [])).map
            fun fieldName => renderField (getField lastRecord fieldName))) <:+ text := by
  have htext := downloadCSV_text stringToNumber results hne
  refine ⟨htext, ?_⟩
  intro lastRecord text hlast hsome
  rw [htext] at hsome
  cases hsome
  exact (suffix_flatten_map_last
    (fun row => '\n' :: dataRow (objectKeys ((sortByRisk stringToNumber results).headD [])) row)
    _ lastRecord hlast).trans (List.suffix_append _ _)

/-- C13, witness: the three example records give the text of the ranking
example, which ends with the row `C,0.2`. -/
theorem downloadCSV_rows_witness :
    exampleRecords ≠ [] ∧
      downloadCSV noNumericStrings exampleRecords =
        some "id,churn_probability\nA,0.9\nB,0.9\nC,0.2".toList := by
  refine ⟨by decide, ?_⟩
  rw [(downloadCSV_rows noNumericStrings exampleRecords (by decide)).1,
    sortByRisk_exampleRecords]
  decide

/-! ## Ranking leaves its input alone -/

theorem read_append_left (h : Heap) (extra : List Record) (array : Nat)
    (hvalid : array < h.length) : Heap.read (h ++ [extra]) array = Heap.read h array := by
  simp [Heap.read, List.getElem?_append_left hvalid]

theorem read_append_new (h : Heap) (extra : List Record) :
    Heap.read (h ++ [extra]) h.length = extra := by
  simp [Heap.read]

theorem read_set_new (h : Heap) (extra sorted : List Record) (array : Nat)
    (hvalid : array < h.length) :
    Heap.read ((h ++ [extra]).set h.length sorted) array = Heap.read h array := by
  have hne : h.length ≠ array := Nat.ne_of_gt hvalid
  simp [Heap.read, List.getElem?_set_ne hne, List.getElem?_append_left hvalid]

theorem read_set_self (h : Heap) (extra sorted : List Record) :
    Heap.read ((h ++ [extra]).set h.length sorted) h.length = sorted := by
  simp [Heap.read]

/-- C14: the ranking works on a copy.  For every store and every array
`results` of it, after the ranking of `downloadCSV` and `generateReport`, and
after the ranking followed by `slice` of `generateReport`, `displayedResults`
and `handleSendMessage`, every array that was in the store, `results` among
them, holds the same records in the same order as before; the ranked records
are in a new array. -/
theorem ranking_keeps_input (stringToNumber : JSString → Option ℚ) (h : Heap)
    (results count : Nat) (hresults : results < h.length) :
    (∀ array, array < h.length →
        (rankInStore stringToNumber h results).1.read array = h.read array ∧
        (topRankedInStore stringToNumber h results count).1.read array = h.read array) ∧
      (rankInStore stringToNumber h results).1.read (rankInStore stringToNumber h results).2 =
        sortByRisk stringToNumber (h.read results) ∧
      (topRankedInStore stringToNumber h results count).1.read
          (topRankedInStore stringToNumber h results count).2 =
        (sortByRisk stringToNumber (h.read results)).take count ∧
      (rankInStore stringToNumber h results).2 ≠ results ∧
      (topRankedInStore stringToNumber h results count).2 ≠ results := by
  have hrank : rankInStore stringToNumber h results =
      ((h ++ [h.read results]).set h.length (sortByRisk stringToNumber (h.read results)),
        h.length) := by
    simp only [rankInStore, spreadCopy, sortInPlace, read_append_new, sortByRisk]
  have hlen : ((h ++ [h.read results]).set h.length
      (sortByRisk stringToNumber (h.read results))).length = h.length + 1 := by
    simp
  have hkeep : ∀ array, array < h.length →
      (rankInStore stringToNumber h results).1.read array = h.read array := by
    intro array hvalid
    rw [hrank]
    exact read_set_new h _ _ array hvalid
  have hsorted : (rankInStore stringToNumber h results).1.read
      (rankInStore stringToNumber h results).2 =
      sortByRisk stringToNumber (h.read results) := by
    rw [hrank]
    exact read_set_self h _ _
  refine ⟨fun array hvalid => ⟨hkeep array hvalid, ?_⟩, hsorted, ?_, ?_, ?_⟩
  · rw [← hkeep array hvalid]
    simp only [topRankedInStore, sliceCopy]
    apply read_append_left
    rw [hrank, hlen]
    exact Nat.lt_succ_of_lt hvalid
  · simp only [topRankedInStore, sliceCopy, read_append_new, hsorted]
  · rw [hrank]
    exact Nat.ne_of_gt hresults
  · simp only [topRankedInStore, sliceCopy]
    rw [hrank, hlen]
    exact Nat.ne_of_gt (Nat.lt_succ_of_lt hresults)

/-- C14, witness: in a store whose only array holds `C`, `A`, `B`, that array
still holds `C`, `A`, `B` after the ranking and after the ranking cut to five. -/
theorem ranking_keeps_input_witness :
    (0 : Nat) < [[exampleRecord "C".toList ⟨2 / 10, "0.2".toList⟩,
        exampleRecord "A".toList ⟨9 / 10, "0.9".toList⟩,
        exampleRecord "B".toList ⟨9 / 10, "0.9".toList⟩]].length ∧
      (rankInStore noNumericStrings
        [[exampleRecord "C".toList ⟨2 / 10, "0.2".toList⟩,
          exampleRecord "A".toList ⟨9 / 10, "0.9".toList⟩,
          exampleRecord "B".toList ⟨9 / 10, "0.9".toList⟩]] 0).1.read 0 =
        [exampleRecord "C".toList ⟨2 / 10, "0.2".toList⟩,
          exampleRecord "A".toList ⟨9 / 10, "0.9".toList⟩,
          exampleRecord "B".toList ⟨9 / 10, "0.9".toList⟩] ∧
      (topRankedInStore noNumericStrings
        [[exampleRecord "C".toList ⟨2 / 10, "0.2".toList⟩,
          exampleRecord "A".toList ⟨9 / 10, "0.9".toList⟩,
          exampleRecord "B".toList ⟨9 / 10, "0.9".toList⟩]] 0 5).1.read 0 =
        [exampleRecord "C".toList ⟨2 / 10, "0.2".toList⟩,
          exampleRecord "A".toList ⟨9 / 10, "0.9".toList⟩,
          exampleRecord "B".toList ⟨9 / 10, "0.9".toList⟩] :=
  ⟨by decide,
    ((ranking_keeps_input noNumericStrings _ 0 5 (by decide)).1 0 (by decide)).1,
    ((ranking_keeps_input noNumericStrings _ 0 5 (by decide)).1 0 (by decide)).2⟩

/-! ## The report and the stream -/

theorem run_setReports (updates : List JSString) (s : ReportState) (text : JSString)
    (hs : s.report = some text) :
    (s.run (updates.map ReportAction.setReport)).report =
      some (updates.getLast?.getD text) := by
  induction updates generalizing s text with
  | nil => simpa [ReportState.run] using hs
  | cons u rest ih =>
    have h := ih (s.apply (ReportAction.setReport u)) u rfl
    simp only [ReportState.run, List.map_cons, List.foldl_cons] at h ⊢
    rw [h, List.getLast?_cons]
    rfl

/-- C15, as stated, fails after a failure: after the chunk `Hi` and a failed
read the accumulated text is `Hi`, and the report is the error text. -/
theorem report_differs_after_failure :
    (readLoop newTextDecoder []
        [ReadResult.chunk (asciiBytes "Hi"), ReadResult.error]).accumulatedText =
        "Hi".toList ∧
      ((ReportState.mk none false).run
        (generateReport (Response.body
          [ReadResult.chunk (asciiBytes "Hi"), ReadResult.error]))).report ≠
        some (readLoop newTextDecoder []
          [ReadResult.chunk (asciiBytes "Hi"), ReadResult.error]).accumulatedText := by
  decide

/-- C15 (amended): for every sequence of read results that `generateReport`
has consumed, and so at every point of the stream, the report is the
accumulated text of the stream when no read has failed, after each chunk and
at completion, and the error text of `generateReport` once a read has failed. -/
theorem report_follows_stream (reads : List ReadResult) (s : ReportState) :
    (s.run (generateReport (Response.body reads))).report =
      if (readLoop newTextDecoder [] reads).outcome = LoopOutcome.failed then
        some reportErrorText
      else some (readLoop newTextDecoder [] reads).accumulatedText := by
  have hlast := readLoop_last_update newTextDecoder [] reads
  have hupd := run_setReports (readLoop newTextDecoder [] reads).updates
    (List.foldl ReportState.apply s
      [ReportAction.setReportLoading true, ReportAction.setReport []]) [] rfl
  rw [hlast, ReportState.run] at hupd
  simp only [generateReport, ReportState.run, List.foldl_append]
  generalize List.foldl ReportState.apply
    (List.foldl ReportState.apply s
      [ReportAction.setReportLoading true, ReportAction.setReport []]) _ = streamed at hupd ⊢
  cases (readLoop newTextDecoder [] reads).outcome with
  | completed =>
    simp only [List.foldl_cons, List.foldl_nil, ReportState.apply, hupd, reduceCtorEq,
      if_false]
  | failed =>
    simp only [reportCatch, List.foldl_cons, List.foldl_nil, ReportState.apply, if_true]
  | awaiting =>
    simp only [List.foldl_nil, hupd, reduceCtorEq, if_false]

/-! ## The transcript -/

theorem updateLast_frame (accumulatedText : JSString) (ms : List Message) :
    (updateLast accumulatedText ms).length = ms.length ∧
      (updateLast accumulatedText ms).dropLast = ms.dropLast ∧
      (updateLast accumulatedText ms).map Message.role = ms.map Message.role ∧
      (∀ lastMsg, ms.getLast? = some lastMsg → lastMsg.role ≠ Role.bot →
        updateLast accumulatedText ms = ms) := by
  induction ms with
  | nil => simp [updateLast]
  | cons m rest ih =>
    cases rest with
    | nil =>
      by_cases hrole : m.role = Role.bot
      · simp [updateLast, hrole]
      · simp [updateLast, hrole]
    | cons next rest =>
      obtain ⟨hlen, hdrop, hroles, hlast⟩ := ih
      have hstep : updateLast accumulatedText (m :: next :: rest) =
          m :: updateLast accumulatedText (next :: rest) := rfl
      have hne : updateLast accumulatedText (next :: rest) ≠ [] := by
        intro h
        rw [h] at hlen
        simp at hlen
      refine ⟨by simp [hstep, hlen], ?_, by simp [hstep, hroles], ?_⟩
      · rw [hstep, List.dropLast_cons_of_ne_nil hne, hdrop,
          List.dropLast_cons_of_ne_nil (List.cons_ne_nil _ _)]
      · intro lastMsg hl hrole
        rw [hstep, hlast lastMsg (by simpa [List.getLast?_cons_cons] using hl) hrole]

theorem apply_append_only (s : ChatState) (action : ChatAction) :
    (∃ m, (s.apply action).messages = s.messages ++ [m]) ∨
      ((s.apply action).messages.length = s.messages.length ∧
        (s.apply action).messages.dropLast = s.messages.dropLast ∧
        (s.apply action).messages.map Message.role = s.messages.map Message.role ∧
        (∀ lastMsg, s.messages.getLast? = some lastMsg → lastMsg.role ≠ Role.bot →
          (s.apply action).messages = s.messages)) := by
  cases action with
  | appendMessage m => exact Or.inl ⟨m, rfl⟩
  | streamUpdate text => exact Or.inr (updateLast_frame text s.messages)
  | setInputValue text => exact Or.inr ⟨rfl, rfl, rfl, fun _ _ _ => rfl⟩
  | setIsLoading loading => exact Or.inr ⟨rfl, rfl, rfl, fun _ _ _ => rfl⟩
  | setIsOpen isOpen => exact Or.inr ⟨rfl, rfl, rfl, fun _ _ _ => rfl⟩
  | consoleError => exact Or.inr ⟨rfl, rfl, rfl, fun _ _ _ => rfl⟩

theorem run_session_messages (renders : Nat → Bool) (inputValue : JSString)
    (response : Response) (s : ChatState) (hinput : isBlank inputValue = false) :
    ∃ added, (s.run (handleSendMessage renders inputValue response)).messages =
      s.messages ++ added := by
  have hstart : ∀ t : ChatState, (List.foldl ChatState.apply t
      [ChatAction.appendMessage { role := Role.user, text := inputValue },
       ChatAction.setInputValue [], ChatAction.setIsLoading true,
       ChatAction.appendMessage { role := Role.bot, text := [] }]).messages =
      (t.messages ++ [{ role := Role.user, text := inputValue }]) ++
        [{ role := Role.bot, text := [] }] := by
    intro t
    simp [ChatState.apply]
  simp only [handleSendMessage, hinput, Bool.false_eq_true, if_false, ChatState.run,
    List.foldl_append]
  have hs := hstart s
  generalize List.foldl ChatState.apply s
    [ChatAction.appendMessage { role := Role.user, text := inputValue },
     ChatAction.setInputValue [], ChatAction.setIsLoading true,
     ChatAction.appendMessage { role := Role.bot, text := [] }] = started at hs ⊢
  cases response with
  | rejected =>
    exact ⟨_, by simp only [chatCatch, List.foldl_cons, List.foldl_nil, ChatState.apply, hs,
      List.append_assoc]; rfl⟩
  | noBody =>
    exact ⟨_, by simp only [List.foldl_cons, List.foldl_nil, ChatState.apply, hs,
      List.append_assoc]; rfl⟩
  | body reads =>
    have hupd := run_streamUpdates
      (updaterTexts renders 0 (readLoop newTextDecoder [] reads).updates) started _ _ hs
    rw [ChatState.run] at hupd
    simp only [List.foldl_append]
    generalize List.foldl ChatState.apply started _ = streamed at hupd ⊢
    cases (readLoop newTextDecoder [] reads).outcome with
    | completed =>
      exact ⟨_, by simp only [List.foldl_cons, List.foldl_nil, ChatState.apply, hupd,
        List.append_assoc]; rfl⟩
    | failed =>
      exact ⟨_, by simp only [chatCatch, List.foldl_cons, List.foldl_nil, ChatState.apply,
        hupd, List.append_assoc]; rfl⟩
    | awaiting =>
      exact ⟨_, by simp only [List.foldl_nil, hupd, List.append_assoc]; rfl⟩

/-- C16: every effect of `handleSendMessage` on the transcript, in whatever
state it is applied, either appends one entry, or keeps the number of entries,
every entry but the last, and the role of every entry, and changes nothing at
all unless the last entry is an assistant entry: only the text of the last
entry, when it is an assistant entry, is ever rewritten.  Over a whole session
the transcript it started from is kept as the beginning of the transcript. -/
theorem transcript_append_only (renders : Nat → Bool) (inputValue : JSString)
    (response : Response) (s : ChatState) :
    (∀ action ∈ handleSendMessage renders inputValue response, ∀ t : ChatState,
      (∃ m, (t.apply action).messages = t.messages ++ [m]) ∨
        ((t.apply action).messages.length = t.messages.length ∧
          (t.apply action).messages.dropLast = t.messages.dropLast ∧
          (t.apply action).messages.map Message.role = t.messages.map Message.role ∧
          (∀ lastMsg, t.messages.getLast? = some lastMsg → lastMsg.role ≠ Role.bot →
            (t.apply action).messages = t.messages))) ∧
      s.messages <+: (s.run (handleSendMessage renders inputValue response)).messages := by
  refine ⟨fun action _ t => apply_append_only t action, ?_⟩
  cases hinput : isBlank inputValue with
  | true =>
    simp only [handleSendMessage, hinput, if_true, ChatState.run, List.foldl_nil]
    exact List.prefix_refl _
  | false =>
    obtain ⟨added, hadded⟩ := run_session_messages renders inputValue response s hinput
    rw [hadded]
    exact List.prefix_append _ _

/-- C16, witness: the update with `a` is an effect of the session on the chunk
`a`; applied to the transcript it appends nothing and keeps every entry but
the last, and the session keeps the greeting at the start of the transcript. -/
theorem transcript_append_only_witness :
    ChatAction.streamUpdate "a".toList ∈ handleSendMessage rendersAlways "hi".toList
        (Response.body [ReadResult.chunk (asciiBytes "a"), ReadResult.done]) ∧
      ((∃ m, (openChat.apply (ChatAction.streamUpdate "a".toList)).messages =
          openChat.messages ++ [m]) ∨
        ((openChat.apply (ChatAction.streamUpdate "a".toList)).messages.length =
            openChat.messages.length ∧
          (openChat.apply (ChatAction.streamUpdate "a".toList)).messages.dropLast =
            openChat.messages.dropLast ∧
          (openChat.apply (ChatAction.streamUpdate "a".toList)).messages.map Message.role =
            openChat.messages.map Message.role ∧
          (∀ lastMsg, openChat.messages.getLast? = some lastMsg → lastMsg.role ≠ Role.bot →
            (openChat.apply (ChatAction.streamUpdate "a".toList)).messages =
              openChat.messages))) ∧
      openChat.messages <+: (openChat.run (handleSendMessage rendersAlways "hi".toList
        (Response.body [ReadResult.chunk (asciiBytes "a"), ReadResult.done]))).messages :=
  ⟨by decide,
    (transcript_append_only rendersAlways "hi".toList
      (Response.body [ReadResult.chunk (asciiBytes "a"), ReadResult.done]) openChat).1
      (ChatAction.streamUpdate "a".toList) (by decide) openChat,
    (transcript_append_only rendersAlways "hi".toList
      (Response.body [ReadResult.chunk (asciiBytes "a"), ReadResult.done]) openChat).2⟩

/-! ## Columns read back -/

/-- C17, at a failing input: one record with the fields `last, first` and
`churn_probability`.  The header row is written as
`last, first,churn_probability`, without the quotes that the value `Doe, J`
gets, so a reader finds three field names in the first line where the record
has two, and two columns in the data row. -/
theorem header_with_comma_splits :
    downloadCSV noNumericStrings commaKeyRecords =
        some "last, first,churn_probability\n\"Doe, J\",0.5".toList ∧
      objectKeys ((sortByRisk noNumericStrings commaKeyRecords).headD []) =
        ["last, first".toList, "churn_probability".toList] ∧
      (downloadCSV noNumericStrings commaKeyRecords).bind (fun text => parseCsv (firstLine text)) =
        some [["last".toList, " first".toList, "churn_probability".toList]] ∧
      (downloadCSV noNumericStrings commaKeyRecords).bind parseCsv =
        some [["last".toList, " first".toList, "churn_probability".toList],
          ["Doe, J".toList, "0.5".toList]] := by
  decide

/-! ## How many records go with a request -/

theorem length_sortByRisk (stringToNumber : JSString → Option ℚ) (results : List Record) :
    (sortByRisk stringToNumber results).length = results.length :=
  (perm_arraySort (riskComparator stringToNumber) results).length_eq

/-- C18, as stated, fails: for four records the chat context holds all four of
them, not the three highest-ranked. -/
theorem chat_context_of_four :
    (chatTopRisks noNumericStrings fourRecords).length = 4 ∧
      chatTopRisks noNumericStrings fourRecords ≠
        (sortByRisk noNumericStrings fourRecords).take (min 3 fourRecords.length) := by
  have hlen : (chatTopRisks noNumericStrings fourRecords).length = 4 := by
    simp only [chatTopRisks, List.length_take, length_sortByRisk]
    decide
  refine ⟨hlen, fun h => ?_⟩
  have hthree : ((sortByRisk noNumericStrings fourRecords).take
      (min 3 fourRecords.length)).length = 3 := by
    simp only [List.length_take, length_sortByRisk]
    decide
  rw [h, hthree] at hlen
  exact absurd hlen (by decide)

/-- C18 (amended): the chat context (`top_risks`) that `handleSendMessage`
sends consists of the five highest-ranked records: for every results list of
length `n` it is the first `min(5, n)` records of the list ranked by
`churn_probability` descending; the table shows the first `min(10, n)` and the
report request carries the first `min(20, n)`. -/
theorem chat_context_top_five (stringToNumber : JSString → Option ℚ) (results : List Record) :
    chatTopRisks stringToNumber results =
        (sortByRisk stringToNumber results).take (min 5 results.length) ∧
      (chatTopRisks stringToNumber results).length = min 5 results.length ∧
      (displayedResults stringToNumber results).length = min 10 results.length ∧
      (reportTopRisks stringToNumber results).length = min 20 results.length := by
  refine ⟨?_, ?_, ?_, ?_⟩
  · unfold chatTopRisks
    rcases Nat.le_total 5 results.length with h | h
    · rw [Nat.min_eq_left h]
    · rw [Nat.min_eq_right h,
        List.take_of_length_le (by rw [length_sortByRisk]; exact h),
        List.take_of_length_le (by rw [length_sortByRisk])]
  · simp [chatTopRisks, List.length_take, length_sortByRisk]
  · simp [displayedResults, List.length_take, length_sortByRisk]
  · simp [reportTopRisks, List.length_take, length_sortByRisk]

end ChurnDashboard
